import Mathlib

/-!
Verification of the form-element toolkit in `src/forms.py` (TkinterUI).

The Python module is shallowly embedded: each form element's mutable
`tk.Variable` storage cell becomes an explicit state value, getters and
setters become pure functions returning `Except String _` (an `.error`
result models a raised Python exception, in which case the caller's
object state is unchanged), and Python strings that are textually
processed (split, joined, parsed) are modelled as `List Char`.
-/

/-- Python strings that undergo textual processing are modelled as `List Char`. -/
abbrev PyStr := List Char

/-- The fragment of Python values handled by the embedding of `str()` /
`ast.literal_eval`: `None`, booleans, integers, strings, lists and
dictionaries.  This is the fragment `DictForm` stores and re-parses. -/
inductive PyVal where
  | vNone : PyVal
  | vBool : Bool → PyVal
  | vInt : Int → PyVal
  | vStr : PyStr → PyVal
  | vList : List PyVal → PyVal
  | vDict : List (PyVal × PyVal) → PyVal

/-- The decimal digit character for `d < 10` (models Python's decimal printing). -/
def digitChar (d : Nat) : Char := Char.ofNat (48 + d)

/-- Fuel-indexed helper for `natRepr`; `fuel > n` always suffices because the
argument is divided by ten at each step. -/
def natReprAux : Nat → Nat → List Char
  | 0, _ => []
  | fuel + 1, n =>
    if n < 10 then [digitChar n]
    else natReprAux fuel (n / 10) ++ [digitChar (n % 10)]

/-- Decimal representation of a natural number, most significant digit first,
as printed by Python's `str()`. -/
def natRepr (n : Nat) : List Char := natReprAux (n + 1) n

/-- Decimal representation of an integer as printed by Python's `str()`. -/
def intRepr (n : Int) : List Char :=
  if n < 0 then '-' :: natRepr n.natAbs else natRepr n.toNat

mutual

/-- Embedding of Python's `str()` on the supported value fragment.  String
values are printed single-quoted with no escaping, which matches CPython
for strings of printable ASCII characters containing no quote or backslash
(the fragment in which the round-trip theorems are stated). -/
def reprVal : PyVal → List Char
  | .vNone => ['N', 'o', 'n', 'e']
  | .vBool true => ['T', 'r', 'u', 'e']
  | .vBool false => ['F', 'a', 'l', 's', 'e']
  | .vInt n => intRepr n
  | .vStr s => '\'' :: s ++ ['\'']
  | .vList xs => '[' :: reprList xs ++ [']']
  | .vDict es => '{' :: reprEntries es ++ ['}']

/-- Comma-separated rendering of list elements, as in Python's `str()`. -/
def reprList : List PyVal → List Char
  | [] => []
  | [v] => reprVal v
  | v :: vs => reprVal v ++ ',' :: ' ' :: reprList vs

/-- Comma-separated rendering of `key: value` dictionary entries, as in
Python's `str()`. -/
def reprEntries : List (PyVal × PyVal) → List Char
  | [] => []
  | [(k, v)] => reprVal k ++ ':' :: ' ' :: reprVal v
  | (k, v) :: es => reprVal k ++ ':' :: ' ' :: reprVal v ++ ',' :: ' ' :: reprEntries es

end

/-- Drop leading space characters. -/
def skipSpaces : List Char → List Char
  | [] => []
  | c :: r => if c = ' ' then skipSpaces r else c :: r

/-- Scan a single-quoted or double-quoted string body up to the closing
quote `q`; escape sequences are outside the supported fragment and fail. -/
def takeStr (q : Char) : List Char → Option (List Char × List Char)
  | [] => none
  | c :: r =>
    if c = q then some ([], r)
    else if c = '\\' then none
    else (takeStr q r).map (fun p => (c :: p.1, p.2))

/-- Decimal digit test (`'0'` through `'9'`), the digits accepted in a
Python integer literal. -/
def isDigitChar (c : Char) : Bool :=
  decide (48 ≤ c.toNat) && decide (c.toNat ≤ 57)

/-- Consume a maximal run of decimal digits, accumulating their value. -/
def parseDigitsAcc : List Char → Nat → Nat × List Char
  | c :: r, acc =>
    if isDigitChar c then parseDigitsAcc r (acc * 10 + (c.toNat - 48)) else (acc, c :: r)
  | [], acc => (acc, [])

/-- Inputs at which a maximal digit run may stop: empty, or a non-digit head. -/
def noDigitStart : List Char → Bool
  | [] => true
  | c :: _ => !isDigitChar c

/-- The first characters at which a printed value can legitimately be
followed: they are in particular not spaces and not digits. -/
def headOk (c : Char) : Prop :=
  c ≠ ' ' ∧ c ≠ ']' ∧ c ≠ '}' ∧ c ≠ ',' ∧ c ≠ ':'

mutual

/-- Recursive-descent embedding of `ast.literal_eval` on the supported
fragment (`None`/`True`/`False`, decimal integers, quoted strings, lists,
dictionaries).  `fuel` bounds the nesting; `literalEval` supplies enough
fuel for any input of the given length. -/
def parseVal : Nat → List Char → Option (PyVal × List Char)
  | 0, _ => none
  | fuel + 1, s =>
    match s with
    | [] => none
    | c :: r =>
      if c = '\'' then (takeStr '\'' r).map (fun p => (.vStr p.1, p.2))
      else if c = '"' then (takeStr '"' r).map (fun p => (.vStr p.1, p.2))
      else if c = '[' then
        (parseListElems fuel (skipSpaces r)).map (fun p => (.vList p.1, p.2))
      else if c = '{' then
        (parseEntries fuel (skipSpaces r)).map (fun p => (.vDict p.1, p.2))
      else if c = '-' then
        match r with
        | c2 :: r2 =>
          if isDigitChar c2 then
            let p := parseDigitsAcc r2 (c2.toNat - 48)
            some (.vInt (-(p.1 : Int)), p.2)
          else none
        | [] => none
      else if isDigitChar c then
        let p := parseDigitsAcc r (c.toNat - 48)
        some (.vInt (p.1 : Int), p.2)
      else
        match c :: r with
        | 'N' :: 'o' :: 'n' :: 'e' :: r2 => some (.vNone, r2)
        | 'T' :: 'r' :: 'u' :: 'e' :: r2 => some (.vBool true, r2)
        | 'F' :: 'a' :: 'l' :: 's' :: 'e' :: r2 => some (.vBool false, r2)
        | _ => none

/-- Parse the comma-separated elements of a list literal up to and
including the closing bracket. -/
def parseListElems : Nat → List Char → Option (List PyVal × List Char)
  | 0, _ => none
  | fuel + 1, s =>
    match s with
    | [] => none
    | c :: r =>
      if c = ']' then some ([], r)
      else
        match parseVal fuel (c :: r) with
        | none => none
        | some (v, s1) =>
          match skipSpaces s1 with
          | [] => none
          | c2 :: r2 =>
            if c2 = ',' then
              (parseListElems fuel (skipSpaces r2)).map (fun p => (v :: p.1, p.2))
            else if c2 = ']' then some ([v], r2)
            else none

/-- Parse the comma-separated `key: value` entries of a dictionary literal
up to and including the closing brace. -/
def parseEntries : Nat → List Char → Option (List (PyVal × PyVal) × List Char)
  | 0, _ => none
  | fuel + 1, s =>
    match s with
    | [] => none
    | c :: r =>
      if c = '}' then some ([], r)
      else
        match parseVal fuel (c :: r) with
        | none => none
        | some (k, s1) =>
          match skipSpaces s1 with
          | [] => none
          | c2 :: r2 =>
            if c2 = ':' then
              match parseVal fuel (skipSpaces r2) with
              | none => none
              | some (v, s3) =>
                match skipSpaces s3 with
                | [] => none
                | c3 :: r3 =>
                  if c3 = ',' then
                    (parseEntries fuel (skipSpaces r3)).map (fun p => ((k, v) :: p.1, p.2))
                  else if c3 = '}' then some ([(k, v)], r3)
                  else none
            else none

end

/-- Embedding of `ast.literal_eval` as used by `DictForm.value`: parse the
whole input (allowing surrounding spaces); `none` models a raised
`ValueError`/`SyntaxError`. -/
def literalEval (s : List Char) : Option PyVal :=
  match parseVal (s.length + 1) (skipSpaces s) with
  | some (v, rest) => if skipSpaces rest = [] then some v else none
  | none => none

/-- Characters on which the embedded `str()` printer agrees with CPython
inside string literals: printable ASCII, no quotes, no backslash. -/
def goodChar (c : Char) : Bool :=
  c ≠ '\'' && c ≠ '"' && c ≠ '\\' && decide (32 ≤ c.toNat) && decide (c.toNat < 127)

/-- Strings inside the supported `str()`/`literal_eval` fragment. -/
def goodStr (s : PyStr) : Bool := s.all goodChar

mutual

/-- Values inside the supported `str()`/`literal_eval` fragment: every
string component satisfies `goodStr`. -/
def goodVal : PyVal → Bool
  | .vNone => true
  | .vBool _ => true
  | .vInt _ => true
  | .vStr s => goodStr s
  | .vList xs => goodValList xs
  | .vDict es => goodValEntries es

/-- `goodVal` for each element of a list. -/
def goodValList : List PyVal → Bool
  | [] => true
  | v :: vs => goodVal v && goodValList vs

/-- `goodVal` for each key and value of a dictionary. -/
def goodValEntries : List (PyVal × PyVal) → Bool
  | [] => true
  | (k, v) :: es => goodVal k && goodVal v && goodValEntries es

end

mutual

/-- Fuel sufficient for `parseVal` to parse the printed form of a value. -/
def weight : PyVal → Nat
  | .vNone => 1
  | .vBool _ => 1
  | .vInt _ => 1
  | .vStr _ => 1
  | .vList xs => 1 + weightList xs
  | .vDict es => 1 + weightEntries es

/-- Fuel sufficient for `parseListElems` on printed list elements. -/
def weightList : List PyVal → Nat
  | [] => 1
  | v :: vs => 1 + max (weight v) (weightList vs)

/-- Fuel sufficient for `parseEntries` on printed dictionary entries. -/
def weightEntries : List (PyVal × PyVal) → Nat
  | [] => 1
  | (k, v) :: es => 1 + max (max (weight k) (weight v)) (weightEntries es)

end

/-! ## Form elements

Each element owns a `tk.Variable` storage cell, modelled as the element's
state.  The base class stores the cell as `_var : tk.Variable | None`;
an `Option` state with `none` models an element whose variable was never
initialized, on which the accessors raise `AttributeError` (modelled as
`.error`).  A raised exception leaves the element state unchanged, so
setters return `Except String` of the new state. -/

/-- Getter of the base `FormElement.value` property (used unchanged by
`StringForm`, `IntForm`, `FloatForm` and `BoolForm`, whose `tk.Variable`
cells hold values of the respective types `α`). -/
def FormElement.value_get {α : Type} (var : Option α) : Except String α :=
  match var with
  | none => .error "This form element does not have a variable."
  | some x => .ok x

/-- Setter of the base `FormElement.value` property: stores the new value
in the variable, or raises if the variable is missing. -/
def FormElement.value_set {α : Type} (var : Option α) (new_value : α) :
    Except String (Option α) :=
  match var with
  | none => .error "This form element does not have a variable."
  | some _ => .ok (some new_value)

/-- Composition `element.value = x; element.value` through the base
accessors, on an element whose variable currently holds `cur`. -/
def FormElement.setThenGet {α : Type} (cur new_value : α) : Except String α :=
  match FormElement.value_set (some cur) new_value with
  | .ok var => FormElement.value_get var
  | .error e => .error e

/-- `ListForm.__init__`: the variable holds the comma-join of the default
list (Python `",".join(map(str, default))`, where `map(str, ·)` is the
identity on lists of strings), or the empty string. -/
def ListForm.init (default : Option (List PyStr)) : Option PyStr :=
  some (match default with
        | some l => List.intercalate [','] l
        | none => [])

/-- `ListForm.value` getter: split the stored string on `','`; an empty
(falsy) stored string yields the empty list. -/
def ListForm.value_get (var : Option PyStr) : Except String (List PyStr) :=
  match var with
  | none => .error "This form element does not have a variable."
  | some s => .ok (if s.isEmpty then [] else s.splitOn ',')

/-- `ListForm.value` setter: store the comma-join of the new list, or the
empty string when given `None`. -/
def ListForm.value_set (var : Option PyStr) (new_value : Option (List PyStr)) :
    Except String (Option PyStr) :=
  match var with
  | none => .error "This form element does not have a variable."
  | some _ =>
    .ok (some (match new_value with
               | some l => List.intercalate [','] l
               | none => []))

/-- Composition `element.value = l; element.value` on a `ListForm` whose
variable currently holds `var₀`. -/
def ListForm.setThenGet (var₀ : PyStr) (l : List PyStr) : Except String (List PyStr) :=
  match ListForm.value_set (some var₀) (some l) with
  | .ok var => ListForm.value_get var
  | .error e => .error e

/-- State of a `DictForm`: its `tk.StringVar` text. -/
structure DictFormState where
  var : Option PyStr

/-- `DictForm.__init__`: the variable holds `str(default)`, or the text
form of the empty dictionary. -/
def DictForm.init (default : Option (List (PyVal × PyVal))) : DictFormState :=
  { var := some (match default with
                 | some d => reprVal (.vDict d)
                 | none => ['{', '}']) }

/-- `DictForm.value` getter: `ast.literal_eval` the stored text, returning
the empty dictionary when parsing raises (`ValueError`/`SyntaxError`). -/
def DictForm.value_get (st : DictFormState) : Except String PyVal :=
  match st.var with
  | none => .error "This form element does not have a variable."
  | some s =>
    .ok (match literalEval s with
         | some v => v
         | none => .vDict [])

/-- `DictForm.value` setter: store `str(new_value)`, or the text form of
the empty dictionary when given `None`. -/
def DictForm.value_set (st : DictFormState) (new_value : Option (List (PyVal × PyVal))) :
    Except String DictFormState :=
  match st.var with
  | none => .error "This form element does not have a variable."
  | some _ =>
    .ok { var := some (match new_value with
                       | some d => reprVal (.vDict d)
                       | none => ['{', '}']) }

/-- Composition `element.value = d; element.value` on a `DictForm`. -/
def DictForm.setThenGet (st : DictFormState) (d : List (PyVal × PyVal)) :
    Except String PyVal :=
  match DictForm.value_set st (some d) with
  | .ok st2 => DictForm.value_get st2
  | .error e => .error e

/-- State of a `ChoiceForm`: the allowed choices and the `tk.StringVar`
holding the current selection.  `__init__` always initializes `_var`, so
the variable is modelled as always present. -/
structure ChoiceFormState where
  choices : List String
  var : String
deriving DecidableEq, Repr

/-- `ChoiceForm.__init__`: rejects an empty choice list, then selects the
default if it is one of the choices and the first choice otherwise. -/
def ChoiceForm.init (choices : List String) (default : Option String) :
    Except String ChoiceFormState :=
  if choices.isEmpty then .error "Choices must be a non-empty list."
  else
    .ok { choices := choices,
          var := match default with
                 | some d => if d ∈ choices then d else choices.headD ""
                 | none => choices.headD "" }

/-- `ChoiceForm.value` getter. -/
def ChoiceForm.value_get (st : ChoiceFormState) : String := st.var

/-- `ChoiceForm.value` setter: a value in `choices` is stored; `None` with
non-empty `choices` selects the first choice; anything else raises
`ValueError` (state unchanged). -/
def ChoiceForm.value_set (st : ChoiceFormState) (new_value : Option String) :
    Except String ChoiceFormState :=
  match new_value with
  | some v =>
    if v ∈ st.choices then .ok { st with var := v }
    else .error ("Value " ++ v ++ " is not in the choices.")
  | none =>
    if st.choices ≠ [] then .ok { st with var := st.choices.headD "" }
    else .error "Value None is not in the choices."

/-- `ChoiceForm.add_choice`: appends a new choice; raises on duplicates. -/
def ChoiceForm.add_choice (st : ChoiceFormState) (choice : String) :
    Except String ChoiceFormState :=
  if choice ∉ st.choices then .ok { st with choices := st.choices ++ [choice] }
  else .error ("Choice " ++ choice ++ " already exists.")

/-- `ChoiceForm.remove_choice`: removes the first occurrence of an existing
choice; if the removed choice was selected and choices remain, selects the
first remaining choice; if none remain, clears the selection. -/
def ChoiceForm.remove_choice (st : ChoiceFormState) (choice : String) :
    Except String ChoiceFormState :=
  if choice ∈ st.choices then
    let choices2 := st.choices.erase choice
    if choices2 ≠ [] ∧ st.var = choice then
      .ok { choices := choices2, var := choices2.headD "" }
    else if choices2 = [] then
      .ok { choices := choices2, var := "" }
    else
      .ok { st with choices := choices2 }
  else .error ("Choice " ++ choice ++ " does not exist.")

/-- `ChoiceForm.clear_choices`: empties the choices and the selection. -/
def ChoiceForm.clear_choices (_st : ChoiceFormState) : Except String ChoiceFormState :=
  .ok { choices := [], var := "" }

/-- The mutating operations available on a constructed `ChoiceForm` or
`RadioForm`. -/
inductive ChoiceOp where
  | setValue (new_value : Option String)
  | addChoice (choice : String)
  | removeChoice (choice : String)
  | clearChoices
deriving DecidableEq, Repr

/-- Result state of a call that may raise: on `.error` the exception
propagates to the caller and the element state is unchanged. -/
def orKeep (st : ChoiceFormState) : Except String ChoiceFormState → ChoiceFormState
  | .ok st2 => st2
  | .error _ => st

/-- One observable mutation step of a `ChoiceForm`. -/
def ChoiceForm.applyOp (st : ChoiceFormState) : ChoiceOp → ChoiceFormState
  | .setValue nv => orKeep st (ChoiceForm.value_set st nv)
  | .addChoice c => orKeep st (ChoiceForm.add_choice st c)
  | .removeChoice c => orKeep st (ChoiceForm.remove_choice st c)
  | .clearChoices => orKeep st (ChoiceForm.clear_choices st)

/-- `RadioForm.__init__` (identical code to `ChoiceForm.__init__` in the
source). -/
def RadioForm.init (choices : List String) (default : Option String) :
    Except String ChoiceFormState :=
  if choices.isEmpty then .error "Choices must be a non-empty list."
  else
    .ok { choices := choices,
          var := match default with
                 | some d => if d ∈ choices then d else choices.headD ""
                 | none => choices.headD "" }

/-- `RadioForm.value` getter. -/
def RadioForm.value_get (st : ChoiceFormState) : String := st.var

/-- `RadioForm.value` setter (identical code to `ChoiceForm.value`). -/
def RadioForm.value_set (st : ChoiceFormState) (new_value : Option String) :
    Except String ChoiceFormState :=
  match new_value with
  | some v =>
    if v ∈ st.choices then .ok { st with var := v }
    else .error ("Value " ++ v ++ " is not in the choices.")
  | none =>
    if st.choices ≠ [] then .ok { st with var := st.choices.headD "" }
    else .error "Value None is not in the choices."

/-- `RadioForm.add_choice` (identical code to `ChoiceForm.add_choice`). -/
def RadioForm.add_choice (st : ChoiceFormState) (choice : String) :
    Except String ChoiceFormState :=
  if choice ∉ st.choices then .ok { st with choices := st.choices ++ [choice] }
  else .error ("Choice " ++ choice ++ " already exists.")

/-- `RadioForm.remove_choice` (identical code to `ChoiceForm.remove_choice`). -/
def RadioForm.remove_choice (st : ChoiceFormState) (choice : String) :
    Except String ChoiceFormState :=
  if choice ∈ st.choices then
    let choices2 := st.choices.erase choice
    if choices2 ≠ [] ∧ st.var = choice then
      .ok { choices := choices2, var := choices2.headD "" }
    else if choices2 = [] then
      .ok { choices := choices2, var := "" }
    else
      .ok { st with choices := choices2 }
  else .error ("Choice " ++ choice ++ " does not exist.")

/-- `RadioForm.clear_choices` (identical code to `ChoiceForm.clear_choices`). -/
def RadioForm.clear_choices (_st : ChoiceFormState) : Except String ChoiceFormState :=
  .ok { choices := [], var := "" }

/-- One observable mutation step of a `RadioForm`. -/
def RadioForm.applyOp (st : ChoiceFormState) : ChoiceOp → ChoiceFormState
  | .setValue nv => orKeep st (RadioForm.value_set st nv)
  | .addChoice c => orKeep st (RadioForm.add_choice st c)
  | .removeChoice c => orKeep st (RadioForm.remove_choice st c)
  | .clearChoices => orKeep st (RadioForm.clear_choices st)

/-- State of a `MultiChoiceForm`: the choices shown in the listbox (in
order, one listbox row per choice, as built by `regen_widgets`) and the
set of currently selected listbox indices.  The internal `tk.StringVar`
only mirrors the selection text for `_on_select` and is never read by the
`value` getter, so it is not part of this state. -/
structure MultiChoiceFormState where
  choices : List String
  selected : List Nat

/-- `MultiChoiceForm.__init__`: the default list only seeds the internal
`StringVar` text; `regen_widgets` builds the listbox with no row
selected, so the initial selection is empty. -/
def MultiChoiceForm.init (choices : List String) (_default : Option (List String)) :
    MultiChoiceFormState :=
  { choices := choices, selected := [] }

/-- `listbox.select_set(i)`: adds an index to the selection set (a no-op
when the index is already selected). -/
def MultiChoiceForm.selectSet (sel : List Nat) (i : Nat) : List Nat :=
  if i ∈ sel then sel else sel ++ [i]

/-- `listbox.curselection()`: the selected indices in ascending order. -/
def MultiChoiceForm.curselection (st : MultiChoiceFormState) : List Nat :=
  (List.range st.choices.length).filter (fun i => i ∈ st.selected)

/-- `MultiChoiceForm.value` getter:
`[self.listbox.get(i) for i in self.listbox.curselection()]`. -/
def MultiChoiceForm.value_get (st : MultiChoiceFormState) : List String :=
  (MultiChoiceForm.curselection st).map (fun i => st.choices.getD i "")

/-- `MultiChoiceForm.value` setter: clears the selection, then for each
requested choice selects the index found by `choices.index`, silently
ignoring choices that raise `ValueError` (unknown choices); `None` just
clears.  (`_on_select` then mirrors the selection into the `StringVar`,
which the getter never reads.) -/
def MultiChoiceForm.value_set (st : MultiChoiceFormState)
    (new_value : Option (List String)) : MultiChoiceFormState :=
  { st with
    selected :=
      match new_value with
      | none => []
      | some vs =>
        vs.foldl
          (fun sel v =>
            if v ∈ st.choices then MultiChoiceForm.selectSet sel (st.choices.indexOf v)
            else sel)
          [] }

/-- The invariant actually maintained by a constructed choice-bearing
element: the selection is one of the choices, or is the empty string. -/
def choiceInv (st : ChoiceFormState) : Prop := st.var ∈ st.choices ∨ st.var = ""

/-- `ColorForm.__init__`: the variable defaults to white. -/
def ColorForm.init (default : Option String) : Option String :=
  some (default.getD "#FFFFFF")

/-- `ColorForm.value` getter. -/
def ColorForm.value_get (var : Option String) : Except String String :=
  match var with
  | none => .error "This form element does not have a variable."
  | some s => .ok s

/-- `ColorForm.value` setter: stores the new value, substituting white
only when given `None`. -/
def ColorForm.value_set (var : Option String) (new_value : Option String) :
    Except String (Option String) :=
  match var with
  | none => .error "This form element does not have a variable."
  | some _ => .ok (some (match new_value with
                         | some s => s
                         | none => "#FFFFFF"))

/-- Composition `element.value = s; element.value` on a `ColorForm`. -/
def ColorForm.setThenGet (cur s : String) : Except String String :=
  match ColorForm.value_set (some cur) (some s) with
  | .ok var => ColorForm.value_get var
  | .error e => .error e

/-- `ColorPickerForm` inherits `ColorForm`'s `value` setter unchanged. -/
def ColorPickerForm.value_set : Option String → Option String → Except String (Option String) :=
  ColorForm.value_set

/-- `FileForm.value` setter: stores the new value, or the empty string for
`None` (used by `DirectoryForm` unchanged). -/
def FileForm.value_set (var : Option String) (new_value : Option String) :
    Except String (Option String) :=
  match var with
  | none => .error "This form element does not have a variable."
  | some _ => .ok (some (new_value.getD ""))

/-- `FileForm.value` getter. -/
def FileForm.value_get (var : Option String) : Except String String :=
  match var with
  | none => .error "This form element does not have a variable."
  | some s => .ok s

/-- Composition `element.value = s; element.value` on a `FileForm`
(`DirectoryForm` inherits both accessors unchanged). -/
def FileForm.setThenGet (cur s : String) : Except String String :=
  match FileForm.value_set (some cur) (some s) with
  | .ok var => FileForm.value_get var
  | .error e => .error e

/-- `PathForm.value` setter (identical code to `FileForm.value`). -/
def PathForm.value_set (var : Option String) (new_value : Option String) :
    Except String (Option String) :=
  match var with
  | none => .error "This form element does not have a variable."
  | some _ => .ok (some (new_value.getD ""))

/-- `PathForm.value` getter. -/
def PathForm.value_get (var : Option String) : Except String String :=
  match var with
  | none => .error "This form element does not have a variable."
  | some s => .ok s

/-- Composition `element.value = s; element.value` on a `PathForm`. -/
def PathForm.setThenGet (cur s : String) : Except String String :=
  match PathForm.value_set (some cur) (some s) with
  | .ok var => PathForm.value_get var
  | .error e => .error e

/-! ## Form aggregation and submission

`Form.process_form` only uses each owned element through its `name`
attribute and its `value` getter, so for aggregation an element is
modelled by its name together with the outcome of reading its value
(`none` models the getter raising `AttributeError`, the one exception
class the aggregation loop catches and logs). -/

/-- A form element as seen by `Form.process_form` on runs where no
uncaught read failure occurs: `none` models the `value` getter raising
`AttributeError`, the one exception class the aggregation loop catches.
`TkFormElem` below refines this with the uncaught-exception path (such as
`tkinter.TclError` raised by `IntVar.get`/`DoubleVar.get` on unparseable
entry text), which the loop does not catch; `process_form_exc_eq_aux`
relates the two models on failure-free runs. -/
structure FormElem where
  name : String
  readValue : Option PyVal

/-- Lookup in a Python `dict` modelled as an ordered association list
(`d.get(k)` / `d[k]`). -/
def dictGet (m : List (String × PyVal)) (k : String) : Option PyVal :=
  match m with
  | [] => none
  | (k1, v1) :: t => if k = k1 then some v1 else dictGet t k

/-- Insertion into a Python `dict` modelled as an ordered association
list: an existing key keeps its position and gets the new value, a new
key is appended. -/
def dictInsert (m : List (String × PyVal)) (k : String) (v : PyVal) :
    List (String × PyVal) :=
  if m.any (fun p => p.1 = k) then
    m.map (fun p => if p.1 = k then (k, v) else p)
  else m ++ [(k, v)]

/-- One iteration of the `Form.process_form` loop: an element with a falsy
(empty) name is skipped; a value read that raises `AttributeError` is
logged and skipped; every other element's value is written into the result
mapping under its name. -/
def Form.processStep (results : List (String × PyVal)) (e : FormElem) :
    List (String × PyVal) :=
  if e.name ≠ "" then
    match e.readValue with
    | some v => dictInsert results e.name v
    | none => results
  else results

/-- `Form.process_form`: fold the loop body over the owned elements in
insertion order, starting from the empty mapping. -/
def Form.process_form (elems : List FormElem) : List (String × PyVal) :=
  elems.foldl Form.processStep []

/-- One iteration of the aggregation loop as the specification describes
it: every element's value is read into the mapping and only failed reads
are skipped (no name check). -/
def Form.claimedStep (results : List (String × PyVal)) (e : FormElem) :
    List (String × PyVal) :=
  match e.readValue with
  | some v => dictInsert results e.name v
  | none => results

/-- `process_form` as the specification describes it. -/
def Form.process_form_claimed (elems : List FormElem) : List (String × PyVal) :=
  elems.foldl Form.claimedStep []

/-- Outcome of reading one element's `value` property: the getter may
return a value, raise `AttributeError` (which the aggregation loop at
src/forms.py:54 catches and logs), or raise any other exception, such as
`tkinter.TclError` from `IntVar.get`/`DoubleVar.get` on unparseable entry
text, which the loop does not catch. -/
inductive ReadOutcome where
  | val (v : PyVal)
  | attrError
  | uncaughtError (msg : String)

/-- A form element as seen by `Form.process_form`, with the full range of
read outcomes. -/
structure TkFormElem where
  name : String
  readValue : ReadOutcome

/-- Projection onto the failure-free element model: both raises become an
unread value, valid on runs where no uncaught exception occurs. -/
def TkFormElem.erase (e : TkFormElem) : FormElem :=
  { name := e.name,
    readValue := match e.readValue with
                 | .val v => some v
                 | .attrError => none
                 | .uncaughtError _ => none }

/-- The `Form.process_form` loop with exception semantics: an element
with a falsy (empty) name never has its value read; a read raising
`AttributeError` is logged and skipped; a read raising any other
exception propagates immediately, aborting the loop (`.error`); every
other element's value is written into the result mapping under its
name. -/
def Form.processExcGo :
    List (String × PyVal) → List TkFormElem → Except String (List (String × PyVal))
  | results, [] => .ok results
  | results, e :: rest =>
    if e.name ≠ "" then
      match e.readValue with
      | .val v => Form.processExcGo (dictInsert results e.name v) rest
      | .attrError => Form.processExcGo results rest
      | .uncaughtError msg => .error msg
    else Form.processExcGo results rest

/-- `Form.process_form` over the full element model: the built mapping,
or the uncaught exception that aborted the loop. -/
def Form.process_form_exc (elems : List TkFormElem) :
    Except String (List (String × PyVal)) :=
  Form.processExcGo [] elems

/-- `SubmitMode` from the source. -/
inductive SubmitMode where
  | http_post
  | http_put
  | http_delete
  | http_patch
  | run_code
  | log
deriving DecidableEq, Repr

/-- Externally observable actions of `Form.submit`. -/
inductive Effect where
  | connRequest (verb : String) (host : String) (body : List (String × PyVal))
  | connClose (host : String)
  | logInfo (body : List (String × PyVal))

/-- Python truthiness of the optional `url_file_code` argument: `None` and
the empty string are falsy. -/
def truthy : Option String → Bool
  | none => false
  | some s => !(s == "")

/-- The execution context built by the `RUN_CODE` branch: a `data` binding
holding the whole mapping, then each mapping entry as a top-level
binding (`globals_dict.update(data)`). -/
def buildGlobals (data : List (String × PyVal)) : List (String × PyVal) :=
  data.foldl (fun g p => dictInsert g p.1 p.2)
    [("data", PyVal.vDict (data.map (fun p => (PyVal.vStr p.1.data, p.2))))]

/-- Result of `Form.submit`: the returned value or raised exception, the
owned element list after the call, and the external effects performed. -/
structure SubmitOutcome where
  result : Except String PyVal
  elements : List FormElem
  effects : List Effect

/-- `Form.submit`, with the transport layer and the dynamic code executor
abstracted as parameters: `transport verb host body` returns the response
body or a transport failure; `runner code globals` returns the final
execution context or an execution failure.  The element list is returned
unchanged on every path, matching the source, which never mutates
`self._elements` during submission. -/
def Form.submit
    (transport : String → String → List (String × PyVal) → Except String PyStr)
    (runner : String → List (String × PyVal) → Except String (List (String × PyVal)))
    (elems : List FormElem) (mode : SubmitMode) (url_file_code : Option String) :
    SubmitOutcome :=
  let data := Form.process_form elems
  if !truthy url_file_code && !(mode == SubmitMode.log) then
    { result := .error "url_file_code must be provided for non-log submission.",
      elements := elems, effects := [] }
  else
    match mode with
    | .http_post =>
      if !truthy url_file_code then
        { result := .error "url_file_code must be provided for non-log submission.",
          elements := elems, effects := [] }
      else
        let host := url_file_code.getD ""
        match transport "POST" host data with
        | .ok resp =>
          { result := .ok (.vStr resp), elements := elems,
            effects := [.connRequest "POST" host data, .connClose host] }
        | .error e =>
          { result := .error ("Error occurred during HTTP POST: " ++ e),
            elements := elems,
            effects := [.connRequest "POST" host data, .connClose host] }
    | .http_put =>
      if !truthy url_file_code then
        { result := .error "url_file_code must be provided for non-log submission.",
          elements := elems, effects := [] }
      else
        let host := url_file_code.getD ""
        match transport "PUT" host data with
        | .ok resp =>
          { result := .ok (.vStr resp), elements := elems,
            effects := [.connRequest "PUT" host data, .connClose host] }
        | .error e =>
          { result := .error ("Error occurred during HTTP PUT: " ++ e),
            elements := elems,
            effects := [.connRequest "PUT" host data, .connClose host] }
    | .http_delete =>
      if !truthy url_file_code then
        { result := .error "url_file_code must be provided for non-log submission.",
          elements := elems, effects := [] }
      else
        let host := url_file_code.getD ""
        match transport "DELETE" host data with
        | .ok resp =>
          { result := .ok (.vStr resp), elements := elems,
            effects := [.connRequest "DELETE" host data, .connClose host] }
        | .error e =>
          { result := .error ("Error occurred during HTTP DELETE: " ++ e),
            elements := elems,
            effects := [.connRequest "DELETE" host data, .connClose host] }
    | .http_patch =>
      if !truthy url_file_code then
        { result := .error "url_file_code must be provided for non-log submission.",
          elements := elems, effects := [] }
      else
        let host := url_file_code.getD ""
        match transport "PATCH" host data with
        | .ok resp =>
          { result := .ok (.vStr resp), elements := elems,
            effects := [.connRequest "PATCH" host data, .connClose host] }
        | .error e =>
          { result := .error ("Error occurred during HTTP PATCH: " ++ e),
            elements := elems,
            effects := [.connRequest "PATCH" host data, .connClose host] }
    | .run_code =>
      if !truthy url_file_code then
        { result := .error "url_file_code must be provided for non-log submission.",
          elements := elems, effects := [] }
      else
        let code := url_file_code.getD ""
        match runner code (buildGlobals data) with
        | .ok g =>
          { result := .ok (match dictGet g "result" with
                           | some v => v
                           | none => .vNone),
            elements := elems, effects := [] }
        | .error e =>
          { result := .error ("Error occurred while running code: " ++ e),
            elements := elems, effects := [] }
    | .log =>
      { result := .ok .vNone, elements := elems, effects := [.logInfo data] }

/-! ## Auxiliary lemmas: decimal digits and the integer printer -/

theorem parseDigitsAcc_stop (s : List Char) (acc : Nat) (h : noDigitStart s = true) :
    parseDigitsAcc s acc = (acc, s) := by
  cases s with
  | nil => rfl
  | cons c r =>
    simp only [noDigitStart, Bool.not_eq_true'] at h
    simp [parseDigitsAcc, h]

theorem parseDigitsAcc_append (ds : List Char) :
    ∀ rest acc, (∀ c ∈ ds, isDigitChar c = true) →
      parseDigitsAcc (ds ++ rest) acc =
        parseDigitsAcc rest (ds.foldl (fun a c => a * 10 + (c.toNat - 48)) acc) := by
  induction ds with
  | nil => intro rest acc _; rfl
  | cons c t ih =>
    intro rest acc h
    have hc : isDigitChar c = true := h c (List.mem_cons_self c t)
    simp only [List.cons_append, parseDigitsAcc, hc, if_pos, List.foldl_cons]
    exact ih rest _ (fun x hx => h x (List.mem_cons_of_mem _ hx))

theorem digitChar_toNat (d : Nat) (h : d < 10) : (digitChar d).toNat = 48 + d := by
  interval_cases d <;> decide

theorem isDigitChar_digitChar (d : Nat) (h : d < 10) : isDigitChar (digitChar d) = true := by
  interval_cases d <;> decide

theorem natReprAux_digits :
    ∀ fuel n c, c ∈ natReprAux fuel n → isDigitChar c = true := by
  intro fuel
  induction fuel with
  | zero => intro n c hc; simp [natReprAux] at hc
  | succ fuel ih =>
    intro n c hc
    unfold natReprAux at hc
    by_cases h : n < 10
    · simp only [if_pos h, List.mem_singleton] at hc
      exact hc ▸ isDigitChar_digitChar n h
    · simp only [if_neg h, List.mem_append, List.mem_singleton] at hc
      rcases hc with hc | hc
      · exact ih _ c hc
      · exact hc ▸ isDigitChar_digitChar _ (Nat.mod_lt _ (by omega))

theorem natReprAux_ne_nil (fuel n : Nat) (h : n < fuel) : natReprAux fuel n ≠ [] := by
  cases fuel with
  | zero => omega
  | succ fuel =>
    unfold natReprAux
    by_cases h10 : n < 10
    · simp [h10]
    · simp [h10]

theorem natReprAux_foldl :
    ∀ fuel n acc, n < fuel →
      (natReprAux fuel n).foldl (fun a c => a * 10 + (c.toNat - 48)) acc
        = acc * 10 ^ (natReprAux fuel n).length + n := by
  intro fuel
  induction fuel with
  | zero => intro n acc h; omega
  | succ fuel ih =>
    intro n acc h
    unfold natReprAux
    by_cases h10 : n < 10
    · simp [h10, digitChar_toNat n h10]
    · have hdivlt : n / 10 < n := Nat.div_lt_self (by omega) (by omega)
      have hdiv : n / 10 < fuel := by omega
      simp only [if_neg h10, List.foldl_append, List.length_append, List.foldl_cons,
        List.foldl_nil, List.length_cons, List.length_nil, ih (n / 10) acc hdiv,
        digitChar_toNat (n % 10) (Nat.mod_lt _ (by omega))]
      rw [pow_succ, ← mul_assoc]
      omega

theorem parseDigitsAcc_natRepr (n : Nat) (rest : List Char) (h : noDigitStart rest = true) :
    parseDigitsAcc (natRepr n ++ rest) 0 = (n, rest) := by
  unfold natRepr
  rw [parseDigitsAcc_append _ rest 0 (fun c hc => natReprAux_digits _ _ c hc),
    parseDigitsAcc_stop rest _ h, natReprAux_foldl (n + 1) n 0 (by omega)]
  simp

theorem natRepr_head (n : Nat) :
    ∃ c cs, natRepr n = c :: cs ∧ isDigitChar c = true := by
  cases hh : natRepr n with
  | nil => exact absurd hh (natReprAux_ne_nil (n + 1) n (by omega))
  | cons c cs =>
    refine ⟨c, cs, rfl, natReprAux_digits (n + 1) n c ?_⟩
    rw [show natReprAux (n + 1) n = natRepr n from rfl, hh]
    exact List.mem_cons_self c cs

theorem isDigitChar_toNat_le (c : Char) (h : isDigitChar c = true) :
    48 ≤ c.toNat ∧ c.toNat ≤ 57 := by
  simpa [isDigitChar] using h

theorem isDigitChar_ne (c : Char) (h : isDigitChar c = true) :
    c ≠ '\'' ∧ c ≠ '"' ∧ c ≠ '[' ∧ c ≠ '{' ∧ c ≠ '-' ∧ headOk c := by
  refine ⟨?_, ?_, ?_, ?_, ?_, ?_, ?_, ?_, ?_, ?_⟩ <;>
    (rintro rfl; exact absurd h (by decide))

theorem takeStr_append (q : Char) (s rest : List Char)
    (h : ∀ c ∈ s, c ≠ q ∧ c ≠ '\\') :
    takeStr q (s ++ q :: rest) = some (s, rest) := by
  induction s with
  | nil => simp [takeStr]
  | cons c t ih =>
    obtain ⟨hq, hb⟩ := h c (List.mem_cons_self c t)
    simp [takeStr, hq, hb, ih (fun x hx => h x (List.mem_cons_of_mem _ hx))]

theorem goodChar_spec (c : Char) (h : goodChar c = true) :
    c ≠ '\'' ∧ c ≠ '"' ∧ c ≠ '\\' := by
  simp only [goodChar, Bool.and_eq_true, decide_eq_true_eq] at h
  exact ⟨h.1.1.1.1, h.1.1.1.2, h.1.1.2⟩

theorem skipSpaces_cons (c : Char) (t : List Char) (h : c ≠ ' ') :
    skipSpaces (c :: t) = c :: t := by
  simp [skipSpaces, h]

theorem reprVal_head (v : PyVal) :
    ∃ c cs, reprVal v = c :: cs ∧ headOk c := by
  cases v with
  | vNone => exact ⟨'N', _, rfl, by decide, by decide, by decide, by decide, by decide⟩
  | vBool b =>
    cases b with
    | true => exact ⟨'T', _, rfl, by decide, by decide, by decide, by decide, by decide⟩
    | false => exact ⟨'F', _, rfl, by decide, by decide, by decide, by decide, by decide⟩
  | vInt n =>
    show ∃ c cs, intRepr n = c :: cs ∧ headOk c
    unfold intRepr
    by_cases hn : n < 0
    · exact ⟨'-', natRepr n.natAbs, by simp [hn], by decide, by decide, by decide,
        by decide, by decide⟩
    · obtain ⟨c, cs, hrepr, hc⟩ := natRepr_head n.toNat
      exact ⟨c, cs, by simp [hn, hrepr], (isDigitChar_ne c hc).2.2.2.2.2⟩
  | vStr s => exact ⟨'\'', _, rfl, by decide, by decide, by decide, by decide, by decide⟩
  | vList xs =>
    exact ⟨'[', _, rfl, by decide, by decide, by decide, by decide, by decide⟩
  | vDict es =>
    exact ⟨'{', _, rfl, by decide, by decide, by decide, by decide, by decide⟩

theorem skipSpaces_reprVal (v : PyVal) (t : List Char) :
    skipSpaces (reprVal v ++ t) = reprVal v ++ t := by
  obtain ⟨c, cs, hrepr, hc⟩ := reprVal_head v
  rw [hrepr, List.cons_append, skipSpaces_cons c _ hc.1]

theorem reprList_cons_eq (v : PyVal) (vs : List PyVal) :
    ∃ t, reprList (v :: vs) = reprVal v ++ t := by
  cases vs with
  | nil => exact ⟨[], by simp [reprList]⟩
  | cons w ws => exact ⟨_, rfl⟩

theorem reprEntries_cons_eq (k v : PyVal) (es : List (PyVal × PyVal)) :
    ∃ t, reprEntries ((k, v) :: es) = reprVal k ++ ':' :: ' ' :: reprVal v ++ t := by
  cases es with
  | nil => exact ⟨[], by simp [reprEntries]⟩
  | cons e es2 =>
    obtain ⟨k2, v2⟩ := e
    exact ⟨',' :: ' ' :: reprEntries ((k2, v2) :: es2), rfl⟩

theorem weight_pos (v : PyVal) : 1 ≤ weight v := by
  cases v <;> simp [weight]

theorem weightList_pos (xs : List PyVal) : 1 ≤ weightList xs := by
  cases xs <;> simp [weightList]

theorem weightEntries_pos (es : List (PyVal × PyVal)) : 1 ≤ weightEntries es := by
  cases es with
  | nil => simp [weightEntries]
  | cons e es2 => cases e; simp [weightEntries]

theorem skipSpaces_reprList (xs : List PyVal) (d : Char) (t : List Char) (hd : d ≠ ' ') :
    skipSpaces (reprList xs ++ d :: t) = reprList xs ++ d :: t := by
  cases xs with
  | nil => simpa [reprList] using skipSpaces_cons d t hd
  | cons v vs =>
    obtain ⟨u, hu⟩ := reprList_cons_eq v vs
    rw [hu, List.append_assoc]
    exact skipSpaces_reprVal v _

theorem skipSpaces_reprEntries (es : List (PyVal × PyVal)) (d : Char) (t : List Char)
    (hd : d ≠ ' ') :
    skipSpaces (reprEntries es ++ d :: t) = reprEntries es ++ d :: t := by
  cases es with
  | nil => simpa [reprEntries] using skipSpaces_cons d t hd
  | cons e es2 =>
    obtain ⟨k, v⟩ := e
    obtain ⟨u, hu⟩ := reprEntries_cons_eq k v es2
    rw [hu]
    simp only [List.append_assoc, List.cons_append]
    exact skipSpaces_reprVal k _

theorem parse_repr_aux :
    ∀ fuel : Nat,
      (∀ v rest, weight v ≤ fuel → goodVal v = true → noDigitStart rest = true →
        parseVal fuel (reprVal v ++ rest) = some (v, rest)) ∧
      (∀ xs rest, weightList xs ≤ fuel → goodValList xs = true →
        parseListElems fuel (reprList xs ++ ']' :: rest) = some (xs, rest)) ∧
      (∀ es rest, weightEntries es ≤ fuel → goodValEntries es = true →
        parseEntries fuel (reprEntries es ++ '}' :: rest) = some (es, rest)) := by
  intro fuel
  induction fuel with
  | zero =>
    refine ⟨?_, ?_, ?_⟩
    · intro v _ hw _ _; exact absurd hw (by have := weight_pos v; omega)
    · intro xs _ hw _; exact absurd hw (by have := weightList_pos xs; omega)
    · intro es _ hw _; exact absurd hw (by have := weightEntries_pos es; omega)
  | succ fuel ih =>
    obtain ⟨ihV, ihL, ihE⟩ := ih
    refine ⟨?_, ?_, ?_⟩
    · intro v rest hw hg hrest
      cases v with
      | vNone =>
        have hN : isDigitChar 'N' = false := by decide
        simp [reprVal, parseVal, hN]
      | vBool b =>
        have hT : isDigitChar 'T' = false := by decide
        have hF : isDigitChar 'F' = false := by decide
        cases b <;> simp [reprVal, parseVal, hT, hF]
      | vInt n =>
        by_cases hn : n < 0
        · obtain ⟨c, cs, hcs, hc⟩ := natRepr_head n.natAbs
          have hpd : parseDigitsAcc (cs ++ rest) (c.toNat - 48) = (n.natAbs, rest) := by
            have h0 : parseDigitsAcc ((c :: cs) ++ rest) 0 = (n.natAbs, rest) :=
              hcs ▸ parseDigitsAcc_natRepr n.natAbs rest hrest
            simpa [parseDigitsAcc, hc] using h0
          have habs1 : -((n.natAbs : Nat) : Int) = n := by omega
          have habs2 : -(|n| : Int) = n := by rw [abs_of_neg hn]; ring
          simp [reprVal, intRepr, hn, hcs, parseVal, hc, hpd, habs1, habs2]
        · obtain ⟨c, cs, hcs, hc⟩ := natRepr_head n.toNat
          obtain ⟨hq1, hq2, hq3, hq4, hq5, _⟩ := isDigitChar_ne c hc
          have hpd : parseDigitsAcc (cs ++ rest) (c.toNat - 48) = (n.toNat, rest) := by
            have h0 : parseDigitsAcc ((c :: cs) ++ rest) 0 = (n.toNat, rest) :=
              hcs ▸ parseDigitsAcc_natRepr n.toNat rest hrest
            simpa [parseDigitsAcc, hc] using h0
          have : ((n.toNat : Nat) : Int) = n := by omega
          simp [reprVal, intRepr, hn, hcs, parseVal, hq1, hq2, hq3, hq4, hq5, hc, hpd, this]
      | vStr s =>
        have hchars : ∀ c ∈ s, c ≠ '\'' ∧ c ≠ '\\' := by
          intro c hcm
          have hgc : goodChar c = true := by
            simp only [goodVal, goodStr, List.all_eq_true] at hg
            exact hg c hcm
          exact ⟨(goodChar_spec c hgc).1, (goodChar_spec c hgc).2.2⟩
        simp [reprVal, parseVal, takeStr_append '\'' s rest hchars]
      | vList xs =>
        have hw2 : weightList xs ≤ fuel := by simp [weight] at hw; omega
        have hg2 : goodValList xs = true := by simpa [goodVal] using hg
        simp [reprVal, parseVal, List.append_assoc,
          skipSpaces_reprList xs ']' rest (by decide), ihL xs rest hw2 hg2]
      | vDict es =>
        have hw2 : weightEntries es ≤ fuel := by simp [weight] at hw; omega
        have hg2 : goodValEntries es = true := by simpa [goodVal] using hg
        simp [reprVal, parseVal, List.append_assoc,
          skipSpaces_reprEntries es '}' rest (by decide), ihE es rest hw2 hg2]
    · intro xs rest hw hg
      cases xs with
      | nil => simp [reprList, parseListElems]
      | cons v vs =>
        have hwv : weight v ≤ fuel ∧ weightList vs ≤ fuel := by
          simp only [weightList] at hw
          constructor <;> [have := le_max_left (weight v) (weightList vs);
            have := le_max_right (weight v) (weightList vs)] <;> omega
        have hgv : goodVal v = true ∧ goodValList vs = true := by
          simpa [goodValList, Bool.and_eq_true] using hg
        obtain ⟨c, cs, hrepr, hhead⟩ := reprVal_head v
        cases vs with
        | nil =>
          have hv : parseVal fuel (c :: (cs ++ ']' :: rest)) = some (v, ']' :: rest) := by
            rw [← List.cons_append, ← hrepr]
            exact ihV v _ hwv.1 hgv.1 rfl
          have hred : reprList [v] ++ ']' :: rest = c :: (cs ++ ']' :: rest) := by
            simp [reprList, hrepr]
          rw [hred]
          simp [parseListElems, hhead.2.1, hv, skipSpaces]
        | cons w ws =>
          have hv : parseVal fuel
              (c :: (cs ++ ',' :: ' ' :: (reprList (w :: ws) ++ ']' :: rest)))
              = some (v, ',' :: ' ' :: (reprList (w :: ws) ++ ']' :: rest)) := by
            rw [← List.cons_append, ← hrepr]
            exact ihV v _ hwv.1 hgv.1 rfl
          have hred : reprList (v :: w :: ws) ++ ']' :: rest
              = c :: (cs ++ ',' :: ' ' :: (reprList (w :: ws) ++ ']' :: rest)) := by
            simp [reprList, hrepr]
          rw [hred]
          simp [parseListElems, hhead.2.1, hv, skipSpaces,
            skipSpaces_reprList (w :: ws) ']' rest (by decide),
            ihL (w :: ws) rest hwv.2 hgv.2]
    · intro es rest hw hg
      cases es with
      | nil => simp [reprEntries, parseEntries]
      | cons e es2 =>
        obtain ⟨k, v⟩ := e
        have hwkv : weight k ≤ fuel ∧ weight v ≤ fuel ∧ weightEntries es2 ≤ fuel := by
          simp only [weightEntries] at hw
          refine ⟨?_, ?_, ?_⟩
          · have h1 := le_max_left (weight k) (weight v)
            have h2 := le_max_left (max (weight k) (weight v)) (weightEntries es2)
            omega
          · have h1 := le_max_right (weight k) (weight v)
            have h2 := le_max_left (max (weight k) (weight v)) (weightEntries es2)
            omega
          · have h2 := le_max_right (max (weight k) (weight v)) (weightEntries es2)
            omega
        have hgkv : goodVal k = true ∧ goodVal v = true ∧ goodValEntries es2 = true := by
          simpa [goodValEntries, Bool.and_eq_true, and_assoc] using hg
        obtain ⟨c, cs, hrepr, hhead⟩ := reprVal_head k
        cases es2 with
        | nil =>
          have hk : parseVal fuel (c :: (cs ++ ':' :: ' ' :: (reprVal v ++ '}' :: rest)))
              = some (k, ':' :: ' ' :: (reprVal v ++ '}' :: rest)) := by
            rw [← List.cons_append, ← hrepr]
            exact ihV k _ hwkv.1 hgkv.1 rfl
          have hvv : parseVal fuel (reprVal v ++ '}' :: rest) = some (v, '}' :: rest) :=
            ihV v _ hwkv.2.1 hgkv.2.1 rfl
          have hred : reprEntries [(k, v)] ++ '}' :: rest
              = c :: (cs ++ ':' :: ' ' :: (reprVal v ++ '}' :: rest)) := by
            simp [reprEntries, hrepr]
          rw [hred]
          simp [parseEntries, hhead.2.2.1, hk, hvv, skipSpaces, skipSpaces_reprVal]
        | cons e2 es3 =>
          have hk : parseVal fuel
              (c :: (cs ++ ':' :: ' ' ::
                (reprVal v ++ ',' :: ' ' :: (reprEntries (e2 :: es3) ++ '}' :: rest))))
              = some (k, ':' :: ' ' ::
                (reprVal v ++ ',' :: ' ' :: (reprEntries (e2 :: es3) ++ '}' :: rest))) := by
            rw [← List.cons_append, ← hrepr]
            exact ihV k _ hwkv.1 hgkv.1 rfl
          have hvv : parseVal fuel
              (reprVal v ++ ',' :: ' ' :: (reprEntries (e2 :: es3) ++ '}' :: rest))
              = some (v, ',' :: ' ' :: (reprEntries (e2 :: es3) ++ '}' :: rest)) :=
            ihV v _ hwkv.2.1 hgkv.2.1 rfl
          obtain ⟨k2, v2⟩ := e2
          have hred : reprEntries ((k, v) :: (k2, v2) :: es3) ++ '}' :: rest
              = c :: (cs ++ ':' :: ' ' ::
                (reprVal v ++ ',' :: ' ' ::
                  (reprEntries ((k2, v2) :: es3) ++ '}' :: rest))) := by
            simp [reprEntries, hrepr]
          rw [hred]
          simp [parseEntries, hhead.2.2.1, hk, hvv, skipSpaces, skipSpaces_reprVal,
            skipSpaces_reprEntries ((k2, v2) :: es3) '}' rest (by decide),
            ihE ((k2, v2) :: es3) rest hwkv.2.2 hgkv.2.2]

mutual

theorem weight_le_length (v : PyVal) : weight v ≤ (reprVal v).length + 1 := by
  cases v with
  | vNone => simp [weight]
  | vBool b => simp [weight]
  | vInt n => simp [weight]
  | vStr s => simp [weight]
  | vList xs =>
    have h := weightList_le_length xs
    simp only [weight, reprVal, List.length_cons, List.length_append,
      List.length_singleton]
    omega
  | vDict es =>
    have h := weightEntries_le_length es
    simp only [weight, reprVal, List.length_cons, List.length_append,
      List.length_singleton]
    omega

theorem weightList_le_length (xs : List PyVal) :
    weightList xs ≤ (reprList xs).length + 2 := by
  cases xs with
  | nil => simp [weightList, reprList]
  | cons v vs =>
    have h1 := weight_le_length v
    cases vs with
    | nil =>
      have hmax : max (weight v) (weightList []) ≤ (reprVal v).length + 1 := by
        apply max_le h1
        simp [weightList]
      simp only [weightList, reprList]
      omega
    | cons w ws =>
      have h2 := weightList_le_length (w :: ws)
      have hmax : max (weight v) (weightList (w :: ws))
          ≤ (reprVal v).length + (reprList (w :: ws)).length + 2 := by
        apply max_le <;> omega
      have hwl : weightList (v :: w :: ws)
          = 1 + max (weight v) (weightList (w :: ws)) := rfl
      have hlen : (reprList (v :: w :: ws)).length
          = (reprVal v).length + 2 + (reprList (w :: ws)).length := by
        simp [reprList]
        omega
      rw [hwl, hlen]
      omega

theorem weightEntries_le_length (es : List (PyVal × PyVal)) :
    weightEntries es ≤ (reprEntries es).length + 2 := by
  cases es with
  | nil => simp [weightEntries, reprEntries]
  | cons e es2 =>
    obtain ⟨k, v⟩ := e
    have h1 := weight_le_length k
    have h2 := weight_le_length v
    cases es2 with
    | nil =>
      have hmax : max (max (weight k) (weight v)) (weightEntries [])
          ≤ (reprVal k).length + (reprVal v).length + 1 := by
        apply max_le
        · apply max_le <;> omega
        · simp [weightEntries]
      simp only [weightEntries, reprEntries, List.length_append, List.length_cons]
      omega
    | cons e2 es3 =>
      have h3 := weightEntries_le_length (e2 :: es3)
      have hmax : max (max (weight k) (weight v)) (weightEntries (e2 :: es3))
          ≤ (reprVal k).length + (reprVal v).length + (reprEntries (e2 :: es3)).length + 2 := by
        apply max_le
        · apply max_le <;> omega
        · omega
      obtain ⟨k2, v2⟩ := e2
      have hwe : weightEntries ((k, v) :: (k2, v2) :: es3)
          = 1 + max (max (weight k) (weight v)) (weightEntries ((k2, v2) :: es3)) := rfl
      have hlen : (reprEntries ((k, v) :: (k2, v2) :: es3)).length
          = (reprVal k).length + 2 + (reprVal v).length + 2
            + (reprEntries ((k2, v2) :: es3)).length := by
        simp [reprEntries]
        omega
      rw [hwe, hlen]
      omega

end

theorem literalEval_reprVal (v : PyVal) (hg : goodVal v = true) :
    literalEval (reprVal v) = some v := by
  unfold literalEval
  have hskip : skipSpaces (reprVal v) = reprVal v := by
    simpa using skipSpaces_reprVal v []
  rw [hskip]
  have hp : parseVal ((reprVal v).length + 1) (reprVal v) = some (v, []) := by
    simpa using
      (parse_repr_aux ((reprVal v).length + 1)).1 v [] (weight_le_length v) hg rfl
  simp [hp, skipSpaces]

theorem literalEval_reprDict (es : List (PyVal × PyVal)) (hg : goodValEntries es = true) :
    literalEval (reprVal (.vDict es)) = some (.vDict es) :=
  literalEval_reprVal _ (by simpa [goodVal] using hg)

/-! ## Auxiliary lemmas: the `ListForm` comma round-trip -/

theorem listform_roundtrip (l : List PyStr) (hc : ∀ s ∈ l, ',' ∉ s) (hne : l ≠ [[]]) :
    (if (List.intercalate [','] l).isEmpty then []
     else (List.intercalate [','] l).splitOn ',') = l := by
  rcases eq_or_ne l [] with rfl | hl
  · have hnil : List.intercalate [','] ([] : List PyStr) = [] := rfl
    simp [hnil]
  · have hsp := List.splitOn_intercalate l ',' hc hl
    by_cases hE : (List.intercalate [','] l).isEmpty
    · exfalso
      have hEnil : List.intercalate [','] l = [] := by
        simpa [List.isEmpty_iff] using hE
      rw [hEnil, List.splitOn_nil] at hsp
      exact hne hsp.symm
    · simp [hE, hsp]

/-! ## Auxiliary lemmas: ordered-dictionary insertion, lookup, aggregation -/

theorem dictGet_dictInsert_self (k : String) (v : PyVal) :
    ∀ m : List (String × PyVal), dictGet (dictInsert m k v) k = some v := by
  intro m
  induction m with
  | nil => simp [dictInsert, dictGet]
  | cons p t ih =>
    obtain ⟨k1, v1⟩ := p
    by_cases h1 : k1 = k
    · subst h1
      simp [dictInsert, dictGet]
    · have hne : k ≠ k1 := Ne.symm h1
      by_cases h2 : t.any (fun p => decide (p.1 = k)) = true
      · have ih2 : dictGet (t.map (fun p => if p.1 = k then (k, v) else p)) k = some v := by
          simpa [dictInsert, h2] using ih
        simp [dictInsert, dictGet, h1, h2, hne, ih2]
      · have ih2 : dictGet (t ++ [(k, v)]) k = some v := by
          simpa [dictInsert, h2] using ih
        simp [dictInsert, dictGet, h1, h2, hne, ih2]

theorem dictGet_map_update_ne (k k' : String) (v : PyVal) (h : k' ≠ k) :
    ∀ m : List (String × PyVal),
      dictGet (m.map (fun p => if p.1 = k then (k, v) else p)) k' = dictGet m k' := by
  intro m
  induction m with
  | nil => simp [dictGet]
  | cons p t ih =>
    obtain ⟨k1, v1⟩ := p
    by_cases h1 : k1 = k
    · subst h1
      simp only [List.map_cons]
      simp [dictGet, h, ih]
    · simp only [List.map_cons, if_neg h1]
      by_cases h2 : k' = k1
      · subst h2; simp [dictGet]
      · simp [dictGet, h2, ih]

theorem dictGet_append_single_ne (k k' : String) (v : PyVal) (h : k' ≠ k) :
    ∀ m : List (String × PyVal), dictGet (m ++ [(k, v)]) k' = dictGet m k' := by
  intro m
  induction m with
  | nil => simp [dictGet, h]
  | cons p t ih =>
    obtain ⟨k1, v1⟩ := p
    by_cases h2 : k' = k1
    · subst h2; simp [dictGet]
    · simp [dictGet, h2, ih]

theorem dictGet_dictInsert_ne (m : List (String × PyVal)) (k k' : String) (v : PyVal)
    (h : k' ≠ k) : dictGet (dictInsert m k v) k' = dictGet m k' := by
  unfold dictInsert
  by_cases hm : m.any (fun p => decide (p.1 = k)) = true
  · simp [hm, dictGet_map_update_ne k k' v h m]
  · simp [hm, dictGet_append_single_ne k k' v h m]

theorem dictGet_foldl_insert_not_mem :
    ∀ (d : List (String × PyVal)) (g : List (String × PyVal)) (k : String),
      (∀ p ∈ d, p.1 ≠ k) →
      dictGet (d.foldl (fun g p => dictInsert g p.1 p.2) g) k = dictGet g k := by
  intro d
  induction d with
  | nil => intro g k _; rfl
  | cons p t ih =>
    intro g k h
    obtain ⟨k1, v1⟩ := p
    have hk1 : k1 ≠ k := h (k1, v1) (List.mem_cons_self _ _)
    simp only [List.foldl_cons]
    rw [ih _ k (fun q hq => h q (List.mem_cons_of_mem _ hq)),
      dictGet_dictInsert_ne _ _ _ _ (Ne.symm hk1)]

theorem dictGet_foldl_insert_of_get :
    ∀ (d : List (String × PyVal)) (g : List (String × PyVal)) (k : String) (v : PyVal),
      (d.map Prod.fst).Nodup → dictGet d k = some v →
      dictGet (d.foldl (fun g p => dictInsert g p.1 p.2) g) k = some v := by
  intro d
  induction d with
  | nil => intro g k v _ hget; simp [dictGet] at hget
  | cons p t ih =>
    intro g k v hnd hget
    obtain ⟨k1, v1⟩ := p
    simp only [List.map_cons, List.nodup_cons] at hnd
    by_cases h1 : k = k1
    · subst h1
      have hv : v1 = v := by simpa [dictGet] using hget
      subst hv
      simp only [List.foldl_cons]
      rw [dictGet_foldl_insert_not_mem t (dictInsert g k v1) k
        (fun q hq hqk => hnd.1 (hqk ▸ List.mem_map_of_mem Prod.fst hq))]
      exact dictGet_dictInsert_self k v1 g
    · have hget2 : dictGet t k = some v := by simpa [dictGet, h1] using hget
      simp only [List.foldl_cons]
      exact ih _ k v hnd.2 hget2

theorem keys_dictInsert (m : List (String × PyVal)) (k : String) (v : PyVal) :
    (dictInsert m k v).map Prod.fst =
      if m.any (fun p => decide (p.1 = k)) = true then m.map Prod.fst
      else m.map Prod.fst ++ [k] := by
  unfold dictInsert
  by_cases hm : m.any (fun p => decide (p.1 = k)) = true
  · simp only [hm, if_pos, List.map_map]
    congr 1
    funext p
    by_cases hp : p.1 = k
    · simp [hp]
    · simp [hp]
  · simp [hm]

theorem nodup_keys_dictInsert (m : List (String × PyVal)) (k : String) (v : PyVal)
    (h : (m.map Prod.fst).Nodup) : ((dictInsert m k v).map Prod.fst).Nodup := by
  rw [keys_dictInsert]
  by_cases hm : m.any (fun p => decide (p.1 = k)) = true
  · simpa [hm] using h
  · have hnotmem : k ∉ m.map Prod.fst := by
      intro hk
      obtain ⟨p, hp, hpk⟩ := List.mem_map.mp hk
      have hall : ∀ x : PyVal, (k, x) ∉ m := by simpa [List.any_eq_true] using hm
      exact hall p.2 (by rw [← hpk]; simpa using hp)
    simp [hm, List.nodup_append, h, hnotmem]

theorem process_form_foldl_nodup :
    ∀ (elems : List FormElem) (acc : List (String × PyVal)),
      (acc.map Prod.fst).Nodup →
      ((elems.foldl Form.processStep acc).map Prod.fst).Nodup := by
  intro elems
  induction elems with
  | nil => intro acc h; simpa using h
  | cons e t ih =>
    intro acc h
    simp only [List.foldl_cons]
    apply ih
    unfold Form.processStep
    by_cases hname : e.name ≠ ""
    · cases hrv : e.readValue with
      | none => simpa [hname, hrv] using h
      | some v => simpa [hname, hrv] using nodup_keys_dictInsert acc e.name v h
    · simpa [hname] using h

theorem process_form_keys_nodup (elems : List FormElem) :
    ((Form.process_form elems).map Prod.fst).Nodup :=
  process_form_foldl_nodup elems [] (by simp)

theorem processStep_skip (acc : List (String × PyVal)) (e : FormElem)
    (h : e.readValue = none) : Form.processStep acc e = acc := by
  simp [Form.processStep, h]

theorem process_form_skips_failure (pre : List FormElem) (bad : FormElem)
    (post : List FormElem) (h : bad.readValue = none) :
    Form.process_form (pre ++ bad :: post) = Form.process_form (pre ++ post) := by
  unfold Form.process_form
  rw [List.foldl_append, List.foldl_append, List.foldl_cons, processStep_skip _ _ h]

theorem process_form_eq_claimed_aux :
    ∀ (elems : List FormElem) (acc : List (String × PyVal)),
      (∀ e ∈ elems, e.name ≠ "") →
      elems.foldl Form.processStep acc = elems.foldl Form.claimedStep acc := by
  intro elems
  induction elems with
  | nil => intro acc _; rfl
  | cons e t ih =>
    intro acc h
    simp only [List.foldl_cons]
    rw [show Form.processStep acc e = Form.claimedStep acc e by
      simp [Form.processStep, Form.claimedStep, h e (List.mem_cons_self _ _)]]
    exact ih _ (fun x hx => h x (List.mem_cons_of_mem _ hx))

/-! ## Auxiliary lemmas: `ChoiceForm` / `RadioForm` states -/

theorem headD_mem (l : List String) (h : l ≠ []) : l.headD "" ∈ l := by
  cases l with
  | nil => exact absurd rfl h
  | cons a t => simp [List.headD]

theorem ChoiceForm.init_ok (choices : List String) (default : Option String)
    (st : ChoiceFormState) (h : ChoiceForm.init choices default = .ok st) :
    st.choices = choices ∧ st.var ∈ choices := by
  unfold ChoiceForm.init at h
  by_cases hc : choices.isEmpty = true
  · rw [if_pos hc] at h
    exact absurd h (by simp)
  · rw [if_neg hc] at h
    have hne : choices ≠ [] := by simpa [List.isEmpty_iff] using hc
    injection h with h
    subst h
    refine ⟨rfl, ?_⟩
    cases default with
    | none => exact headD_mem choices hne
    | some d =>
      by_cases hd : d ∈ choices
      · simp only [if_pos hd]
        exact hd
      · simpa [hd] using headD_mem choices hne

theorem ChoiceForm.applyOp_inv (st : ChoiceFormState) (op : ChoiceOp)
    (h : choiceInv st) : choiceInv (ChoiceForm.applyOp st op) := by
  cases op with
  | setValue nv =>
    cases nv with
    | some v =>
      by_cases hv : v ∈ st.choices
      · simp only [ChoiceForm.applyOp, ChoiceForm.value_set, if_pos hv, orKeep]
        exact Or.inl hv
      · simpa only [ChoiceForm.applyOp, ChoiceForm.value_set, if_neg hv, orKeep] using h
    | none =>
      by_cases hc : st.choices = []
      · simpa only [ChoiceForm.applyOp, ChoiceForm.value_set, hc, ne_eq,
          not_true_eq_false, if_false, orKeep] using h
      · simp only [ChoiceForm.applyOp, ChoiceForm.value_set, ne_eq, hc,
          not_false_eq_true, if_true, orKeep]
        exact Or.inl (headD_mem st.choices hc)
  | addChoice c =>
    by_cases hc : c ∉ st.choices
    · simp only [ChoiceForm.applyOp, ChoiceForm.add_choice, if_pos hc, orKeep]
      rcases h with h | h
      · exact Or.inl (List.mem_append_left _ h)
      · exact Or.inr h
    · simpa only [ChoiceForm.applyOp, ChoiceForm.add_choice, if_neg hc, orKeep] using h
  | removeChoice c =>
    by_cases hc : c ∈ st.choices
    · simp only [ChoiceForm.applyOp, ChoiceForm.remove_choice, if_pos hc, orKeep]
      by_cases h1 : st.choices.erase c ≠ [] ∧ st.var = c
      · simp only [if_pos h1, orKeep]
        exact Or.inl (headD_mem _ h1.1)
      · simp only [if_neg h1]
        by_cases h2 : st.choices.erase c = []
        · simp only [if_pos h2, orKeep]
          exact Or.inr rfl
        · simp only [if_neg h2, orKeep]
          have hvc : st.var ≠ c := by
            intro hvc
            exact h1 ⟨h2, hvc⟩
          rcases h with h | h
          · exact Or.inl ((List.mem_erase_of_ne hvc).mpr h)
          · exact Or.inr h
    · simpa only [ChoiceForm.applyOp, ChoiceForm.remove_choice, if_neg hc, orKeep] using h
  | clearChoices =>
    exact Or.inr rfl

theorem ChoiceForm.foldl_inv (ops : List ChoiceOp) :
    ∀ st : ChoiceFormState, choiceInv st →
      choiceInv (ops.foldl ChoiceForm.applyOp st) := by
  induction ops with
  | nil => intro st h; exact h
  | cons op t ih =>
    intro st h
    exact ih _ (ChoiceForm.applyOp_inv st op h)

theorem ChoiceForm.remove_selected (st : ChoiceFormState) (c : String)
    (hmem : c ∈ st.choices) (hsel : st.var = c) :
    ChoiceForm.remove_choice st c =
      .ok { choices := st.choices.erase c,
            var := if st.choices.erase c = [] then ""
                   else (st.choices.erase c).headD "" } := by
  unfold ChoiceForm.remove_choice
  rw [if_pos hmem]
  by_cases h2 : st.choices.erase c = []
  · simp [h2, hsel]
  · simp [h2, hsel]

theorem RadioForm.init_eq : RadioForm.init = ChoiceForm.init := rfl

theorem RadioForm.value_set_eq : RadioForm.value_set = ChoiceForm.value_set := rfl

theorem RadioForm.remove_choice_eq : RadioForm.remove_choice = ChoiceForm.remove_choice := rfl

theorem RadioForm.applyOp_eq : RadioForm.applyOp = ChoiceForm.applyOp := rfl

/-! ## Auxiliary lemmas: `MultiChoiceForm` selection and exception-aware
aggregation -/

theorem mem_selectSet (sel : List Nat) (i j : Nat) :
    i ∈ MultiChoiceForm.selectSet sel j ↔ i ∈ sel ∨ i = j := by
  unfold MultiChoiceForm.selectSet
  by_cases hj : j ∈ sel
  · simp only [if_pos hj]
    constructor
    · exact Or.inl
    · rintro (h | rfl)
      · exact h
      · exact hj
  · simp [if_neg hj, List.mem_append]

theorem mem_foldl_selectSet (choices : List String) :
    ∀ (vs : List String) (sel0 : List Nat) (i : Nat),
      i ∈ vs.foldl
          (fun sel v =>
            if v ∈ choices then MultiChoiceForm.selectSet sel (choices.indexOf v)
            else sel)
          sel0
        ↔ i ∈ sel0 ∨ ∃ v, v ∈ vs ∧ v ∈ choices ∧ choices.indexOf v = i := by
  intro vs
  induction vs with
  | nil => intro sel0 i; simp
  | cons v t ih =>
    intro sel0 i
    simp only [List.foldl_cons]
    rw [ih]
    by_cases hv : v ∈ choices
    · simp only [if_pos hv, mem_selectSet]
      constructor
      · rintro ((h | rfl) | ⟨w, hw, hwc, hwi⟩)
        · exact Or.inl h
        · exact Or.inr ⟨v, List.mem_cons_self v t, hv, rfl⟩
        · exact Or.inr ⟨w, List.mem_cons_of_mem _ hw, hwc, hwi⟩
      · rintro (h | ⟨w, hw, hwc, hwi⟩)
        · exact Or.inl (Or.inl h)
        · rcases List.mem_cons.mp hw with rfl | hw2
          · exact Or.inl (Or.inr hwi.symm)
          · exact Or.inr ⟨w, hw2, hwc, hwi⟩
    · simp only [if_neg hv]
      constructor
      · rintro (h | ⟨w, hw, hwc, hwi⟩)
        · exact Or.inl h
        · exact Or.inr ⟨w, List.mem_cons_of_mem _ hw, hwc, hwi⟩
      · rintro (h | ⟨w, hw, hwc, hwi⟩)
        · exact Or.inl h
        · rcases List.mem_cons.mp hw with rfl | hw2
          · exact absurd hwc hv
          · exact Or.inr ⟨w, hw2, hwc, hwi⟩

theorem multichoice_set_get_mem (st : MultiChoiceFormState) (vs : List String)
    (hvs : ∀ v ∈ vs, v ∈ st.choices) (x : String) :
    x ∈ MultiChoiceForm.value_get (MultiChoiceForm.value_set st (some vs)) ↔ x ∈ vs := by
  unfold MultiChoiceForm.value_set MultiChoiceForm.value_get MultiChoiceForm.curselection
  simp only [List.mem_map, List.mem_filter, List.mem_range, decide_eq_true_eq]
  constructor
  · rintro ⟨i, ⟨hilen, hisel⟩, hx⟩
    rw [mem_foldl_selectSet] at hisel
    rcases hisel with h | ⟨v, hv, hvc, hvi⟩
    · exact absurd h (List.not_mem_nil i)
    · subst hvi
      rw [List.getD_eq_getElem _ _ hilen, List.getElem_indexOf] at hx
      exact hx ▸ hv
  · intro hx
    have hxc : x ∈ st.choices := hvs x hx
    have hlt : st.choices.indexOf x < st.choices.length := List.indexOf_lt_length.mpr hxc
    refine ⟨st.choices.indexOf x, ⟨hlt, ?_⟩, ?_⟩
    · rw [mem_foldl_selectSet]
      exact Or.inr ⟨x, hx, hxc, rfl⟩
    · rw [List.getD_eq_getElem _ _ hlt, List.getElem_indexOf]

theorem processExcGo_append (rest : List TkFormElem) :
    ∀ (pre : List TkFormElem) (results : List (String × PyVal)),
      Form.processExcGo results (pre ++ rest)
        = (Form.processExcGo results pre).bind (fun r => Form.processExcGo r rest) := by
  intro pre
  induction pre with
  | nil => intro results; rfl
  | cons e t ih =>
    intro results
    by_cases hname : e.name ≠ ""
    · cases hrv : e.readValue with
      | val v => simp [Form.processExcGo, hname, hrv, ih]
      | attrError => simp [Form.processExcGo, hname, hrv, ih]
      | uncaughtError msg => simp [Form.processExcGo, hname, hrv, Except.bind]
    · simp [Form.processExcGo, hname, ih]

theorem processExcGo_skip_attr (bad : TkFormElem) (h : bad.readValue = .attrError) :
    ∀ (post : List TkFormElem) (results : List (String × PyVal)),
      Form.processExcGo results (bad :: post) = Form.processExcGo results post := by
  intro post results
  by_cases hname : bad.name ≠ ""
  · simp [Form.processExcGo, hname, h]
  · simp [Form.processExcGo, hname]

theorem processExcGo_eq_of_no_uncaught :
    ∀ (elems : List TkFormElem) (acc : List (String × PyVal)),
      (∀ e ∈ elems, ∀ msg, e.readValue ≠ .uncaughtError msg) →
      Form.processExcGo acc elems
        = .ok ((elems.map TkFormElem.erase).foldl Form.processStep acc) := by
  intro elems
  induction elems with
  | nil => intro acc _; rfl
  | cons e t ih =>
    intro acc h
    have hstep : ∀ r, Form.processExcGo r (e :: t) = Form.processExcGo
        (Form.processStep r (TkFormElem.erase e)) t := by
      intro r
      by_cases hname : e.name ≠ ""
      · cases hrv : e.readValue with
        | val v => simp [Form.processExcGo, Form.processStep, TkFormElem.erase, hname, hrv]
        | attrError => simp [Form.processExcGo, Form.processStep, TkFormElem.erase, hname, hrv]
        | uncaughtError msg => exact absurd hrv (h e (List.mem_cons_self e t) msg)
      · simp [Form.processExcGo, Form.processStep, TkFormElem.erase, hname]
    rw [hstep acc, ih _ (fun x hx => h x (List.mem_cons_of_mem _ hx))]
    rfl

/-! ## Claim theorems -/

/-- Claim C7 (counterexample): the claim says the `ColorForm` value setter
turns every empty value into white `#FFFFFF`, but setting the empty
string stores the empty string unchanged; only `None` is replaced by
white. -/
theorem colorform_set_empty_string_counterexample :
    ColorForm.value_set (some "#000000") (some "") = .ok (some "") ∧
    (.ok (some "") : Except String (Option String)) ≠ .ok (some "#FFFFFF") := by
  refine ⟨rfl, ?_⟩
  intro h
  injection h with h
  injection h with h
  exact absurd h (by decide)

/-- Claim C7 (amended): the `ColorForm` value setter (inherited unchanged
by `ColorPickerForm`) stores white `#FFFFFF` exactly when given `None`;
any string value, including the empty string, is stored as given. -/
theorem colorform_value_set_behavior :
    (∀ cur : String, ColorForm.value_set (some cur) none = .ok (some "#FFFFFF")) ∧
    (∀ cur s : String, ColorForm.value_set (some cur) (some s) = .ok (some s)) ∧
    (∀ cur : String, ColorPickerForm.value_set (some cur) none = .ok (some "#FFFFFF")) ∧
    (∀ cur s : String, ColorPickerForm.value_set (some cur) (some s) = .ok (some s)) :=
  ⟨fun _ => rfl, fun _ _ => rfl, fun _ => rfl, fun _ _ => rfl⟩

/-- Claim C9: constructing a `ChoiceForm` or `RadioForm` with a non-empty
choice list and a default that is not one of the choices succeeds, and the
current value is silently set to the first choice. -/
theorem choice_init_default_not_member :
    ∀ (choices : List String) (d : String),
      choices ≠ [] → d ∉ choices →
      ChoiceForm.init choices (some d) = .ok ⟨choices, choices.headD ""⟩ ∧
      RadioForm.init choices (some d) = .ok ⟨choices, choices.headD ""⟩ := by
  intro choices d hne hnm
  have h1 : ChoiceForm.init choices (some d) = .ok ⟨choices, choices.headD ""⟩ := by
    unfold ChoiceForm.init
    rw [if_neg (by simpa [List.isEmpty_iff] using hne)]
    simp [hnm]
  exact ⟨h1, by rw [RadioForm.init_eq]; exact h1⟩

/-- Witness for C9 at a concrete input. -/
theorem choice_init_default_not_member_witness :
    ChoiceForm.init ["a", "b"] (some "z") = .ok ⟨["a", "b"], "a"⟩ ∧
    RadioForm.init ["a", "b"] (some "z") = .ok ⟨["a", "b"], "a"⟩ :=
  choice_init_default_not_member ["a", "b"] "z" (by decide) (by decide)

/-- Claim C3 (counterexample): the claim says every value outside the
current choices makes the setter fail with the value unchanged, but the
setter called with `None` (which is not one of the string choices) on a
`ChoiceForm`/`RadioForm` with non-empty choices succeeds and resets the
stored value to the first choice. -/
theorem choice_set_none_counterexample :
    ChoiceForm.value_set ⟨["a", "b"], "b"⟩ none = .ok ⟨["a", "b"], "a"⟩ ∧
    RadioForm.value_set ⟨["a", "b"], "b"⟩ none = .ok ⟨["a", "b"], "a"⟩ ∧
    (⟨["a", "b"], "a"⟩ : ChoiceFormState) ≠ ⟨["a", "b"], "b"⟩ :=
  ⟨rfl, rfl, by decide⟩

/-- Claim C3 (amended): for `ChoiceForm` and `RadioForm`, every string
value not in the current choices is rejected with `ValueError` and the
element state is unchanged; only `None` is treated specially (reset to the
first choice when choices are non-empty). -/
theorem choice_set_invalid_string_rejected :
    ∀ (st : ChoiceFormState) (v : String), v ∉ st.choices →
      ChoiceForm.value_set st (some v)
          = .error ("Value " ++ v ++ " is not in the choices.") ∧
      ChoiceForm.applyOp st (.setValue (some v)) = st ∧
      RadioForm.value_set st (some v)
          = .error ("Value " ++ v ++ " is not in the choices.") ∧
      RadioForm.applyOp st (.setValue (some v)) = st := by
  intro st v hv
  have h1 : ChoiceForm.value_set st (some v)
      = .error ("Value " ++ v ++ " is not in the choices.") := by
    simp [ChoiceForm.value_set, hv]
  refine ⟨h1, ?_, ?_, ?_⟩
  · simp [ChoiceForm.applyOp, h1, orKeep]
  · rw [RadioForm.value_set_eq]; exact h1
  · rw [RadioForm.applyOp_eq]; simp [ChoiceForm.applyOp, h1, orKeep]

/-- Witness for C3 (amended) at a concrete input. -/
theorem choice_set_invalid_string_rejected_witness :
    ChoiceForm.value_set ⟨["a"], "a"⟩ (some "x")
        = .error ("Value " ++ "x" ++ " is not in the choices.") ∧
    ChoiceForm.applyOp ⟨["a"], "a"⟩ (.setValue (some "x")) = ⟨["a"], "a"⟩ ∧
    RadioForm.value_set ⟨["a"], "a"⟩ (some "x")
        = .error ("Value " ++ "x" ++ " is not in the choices.") ∧
    RadioForm.applyOp ⟨["a"], "a"⟩ (.setValue (some "x")) = ⟨["a"], "a"⟩ :=
  choice_set_invalid_string_rejected ⟨["a"], "a"⟩ "x" (by decide)

/-- Claim C8: `Form.submit` in any HTTP mode with an absent or empty
target raises the configuration `ValueError` before any connection or
request happens (no effects are emitted) and the element list is
unchanged. -/
theorem submit_http_empty_target :
    ∀ (transport : String → String → List (String × PyVal) → Except String PyStr)
      (runner : String → List (String × PyVal) → Except String (List (String × PyVal)))
      (elems : List FormElem) (mode : SubmitMode) (u : Option String),
      (mode = .http_post ∨ mode = .http_put ∨ mode = .http_delete ∨ mode = .http_patch) →
      (u = none ∨ u = some "") →
      Form.submit transport runner elems mode u =
        { result := .error "url_file_code must be provided for non-log submission.",
          elements := elems, effects := [] } := by
  intro transport runner elems mode u hm hu
  have htr : truthy u = false := by rcases hu with rfl | rfl <;> rfl
  rcases hm with rfl | rfl | rfl | rfl <;> simp [Form.submit, htr]

/-- Witness for C8 at a concrete input. -/
theorem submit_http_empty_target_witness :
    Form.submit (fun _ _ _ => .ok []) (fun _ g => .ok g) [] .http_post none =
      { result := .error "url_file_code must be provided for non-log submission.",
        elements := [], effects := [] } :=
  submit_http_empty_target _ _ [] .http_post none (Or.inl rfl) (Or.inl rfl)

/-- Claim C2 (counterexample): the claim fails on two counts.  An element
with an empty name is silently excluded even though its value reads
successfully.  And a value read that raises an exception other than
`AttributeError` (such as `tkinter.TclError` from `IntVar.get` on
unparseable entry text) is not caught: it propagates to the caller and
aborts aggregation, so the remaining element `c` is never collected. -/
theorem process_form_failure_counterexample :
    Form.process_form_exc [⟨"", .val PyVal.vNone⟩] = .ok [] ∧
    Form.process_form_claimed [TkFormElem.erase ⟨"", .val PyVal.vNone⟩]
      = [("", PyVal.vNone)] ∧
    Form.process_form_exc
        [⟨"a", .val (PyVal.vInt 1)⟩, ⟨"b", .uncaughtError "TclError"⟩,
         ⟨"c", .val (PyVal.vInt 2)⟩] = .error "TclError" ∧
    (.error "TclError" : Except String (List (String × PyVal)))
      ≠ .ok [("a", PyVal.vInt 1), ("c", PyVal.vInt 2)] :=
  ⟨rfl, rfl, rfl, fun h => Except.noConfusion h⟩

/-- Claim C2 (amended): `process_form` iterates the elements in insertion
order reading into the output mapping the value of each element that has
a non-empty name (an empty-named element is silently excluded without a
read); a read failing with `AttributeError` — the only exception class
the loop catches — is logged and skipped, and aggregation of the
remaining elements still completes; but a read failing with any other
exception (such as `tkinter.TclError` raised by `IntVar.get` or
`DoubleVar.get` on unparseable entry text) propagates to the caller and
aborts aggregation of the remaining elements.  On failure-free elements
with non-empty names the built mapping is exactly the one the
specification describes. -/
theorem process_form_failure_semantics :
    (∀ (pre : List TkFormElem) (bad : TkFormElem) (post : List TkFormElem),
        bad.readValue = .attrError →
        Form.process_form_exc (pre ++ bad :: post)
          = Form.process_form_exc (pre ++ post)) ∧
    (∀ (pre : List TkFormElem) (bad : TkFormElem) (post : List TkFormElem)
        (msg : String) (results : List (String × PyVal)),
        bad.name ≠ "" → bad.readValue = .uncaughtError msg →
        Form.process_form_exc pre = .ok results →
        Form.process_form_exc (pre ++ bad :: post) = .error msg) ∧
    (∀ elems : List TkFormElem,
        (∀ e ∈ elems, e.name ≠ "") →
        (∀ e ∈ elems, ∀ msg, e.readValue ≠ .uncaughtError msg) →
        Form.process_form_exc elems
          = .ok (Form.process_form_claimed (elems.map TkFormElem.erase))) := by
  refine ⟨?_, ?_, ?_⟩
  · intro pre bad post h
    unfold Form.process_form_exc
    rw [processExcGo_append (bad :: post) pre, processExcGo_append post pre]
    cases hpre : Form.processExcGo [] pre with
    | error e => rfl
    | ok r => exact processExcGo_skip_attr bad h post r
  · intro pre bad post msg results hname hbad hpre
    unfold Form.process_form_exc
    rw [processExcGo_append (bad :: post) pre]
    rw [show Form.processExcGo [] pre = .ok results from hpre]
    show Form.processExcGo results (bad :: post) = .error msg
    simp [Form.processExcGo, hname, hbad]
  · intro elems hnames hnoexc
    unfold Form.process_form_exc
    rw [processExcGo_eq_of_no_uncaught elems [] hnoexc]
    rw [show (elems.map TkFormElem.erase).foldl Form.processStep []
        = (elems.map TkFormElem.erase).foldl Form.claimedStep [] from
      process_form_eq_claimed_aux _ [] (by
        intro e he
        obtain ⟨e0, he0, rfl⟩ := List.mem_map.mp he
        exact hnames e0 he0)]
    rfl

/-- Witness for C2 (amended) at concrete inputs: an `AttributeError`
element is skipped without blocking later elements, an uncaught failure
aborts with the later element uncollected, and a failure-free run builds
the specified mapping. -/
theorem process_form_failure_semantics_witness :
    Form.process_form_exc
        ([⟨"a", .val (PyVal.vInt 1)⟩] ++ ⟨"x", .attrError⟩
          :: [⟨"c", .val PyVal.vNone⟩])
      = Form.process_form_exc
          ([⟨"a", .val (PyVal.vInt 1)⟩] ++ [⟨"c", .val PyVal.vNone⟩]) ∧
    Form.process_form_exc
        ([⟨"a", .val (PyVal.vInt 1)⟩] ++ ⟨"b", .uncaughtError "TclError"⟩
          :: [⟨"c", .val PyVal.vNone⟩])
      = .error "TclError" ∧
    Form.process_form_exc [⟨"a", .val (PyVal.vInt 5)⟩]
      = .ok (Form.process_form_claimed
          ([⟨"a", .val (PyVal.vInt 5)⟩].map TkFormElem.erase)) :=
  ⟨process_form_failure_semantics.1 [⟨"a", .val (PyVal.vInt 1)⟩] ⟨"x", .attrError⟩
      [⟨"c", .val PyVal.vNone⟩] rfl,
   process_form_failure_semantics.2.1 [⟨"a", .val (PyVal.vInt 1)⟩]
      ⟨"b", .uncaughtError "TclError"⟩ [⟨"c", .val PyVal.vNone⟩] "TclError"
      [("a", PyVal.vInt 1)] (by decide) rfl rfl,
   process_form_failure_semantics.2.2 [⟨"a", .val (PyVal.vInt 5)⟩]
      (by
        intro e he
        simp only [List.mem_singleton] at he
        subst he
        decide)
      (by
        intro e he msg
        simp only [List.mem_singleton] at he
        subst he
        intro hcontra
        exact ReadOutcome.noConfusion hcontra)⟩

/-- Claim C4 (counterexample): the claim says that in every reachable
state the current value is a member of the choices (or empty when the
choices are empty), but `clear_choices` followed by `add_choice` reaches a
state with non-empty choices whose current value is the empty string,
which is not a member. -/
theorem choice_invariant_counterexample :
    ChoiceForm.init ["a"] none = .ok ⟨["a"], "a"⟩ ∧
    ([ChoiceOp.clearChoices, ChoiceOp.addChoice "b"].foldl
        ChoiceForm.applyOp ⟨["a"], "a"⟩) = ⟨["b"], ""⟩ ∧
    ¬(("" : String) ∈ (["b"] : List String) ∨ (["b"] : List String) = []) :=
  ⟨rfl, rfl, by decide⟩

/-- Claim C4 (amended): removing the currently selected choice updates the
selection to the first remaining choice, or to empty when none remain (for
both `ChoiceForm` and `RadioForm`); and in every state reachable from a
constructed element the current value is a member of the choices *or* is
the empty string (the empty value also arises with non-empty choices after
`clear_choices` followed by `add_choice`). -/
theorem choice_remove_selected_and_invariant :
    (∀ (st : ChoiceFormState) (c : String), c ∈ st.choices → st.var = c →
        ChoiceForm.remove_choice st c =
          .ok ⟨st.choices.erase c,
               if st.choices.erase c = [] then ""
               else (st.choices.erase c).headD ""⟩ ∧
        RadioForm.remove_choice st c =
          .ok ⟨st.choices.erase c,
               if st.choices.erase c = [] then ""
               else (st.choices.erase c).headD ""⟩) ∧
    (∀ (choices : List String) (default : Option String) (st0 : ChoiceFormState)
        (ops : List ChoiceOp),
        ChoiceForm.init choices default = .ok st0 →
        choiceInv (ops.foldl ChoiceForm.applyOp st0)) ∧
    (∀ (choices : List String) (default : Option String) (st0 : ChoiceFormState)
        (ops : List ChoiceOp),
        RadioForm.init choices default = .ok st0 →
        choiceInv (ops.foldl RadioForm.applyOp st0)) := by
  refine ⟨?_, ?_, ?_⟩
  · intro st c hmem hsel
    have h1 := ChoiceForm.remove_selected st c hmem hsel
    exact ⟨h1, by rw [RadioForm.remove_choice_eq]; exact h1⟩
  · intro choices default st0 ops h0
    have hinv : choiceInv st0 := Or.inl (((ChoiceForm.init_ok _ _ _ h0).1) ▸
      (ChoiceForm.init_ok _ _ _ h0).2)
    exact ChoiceForm.foldl_inv ops st0 hinv
  · intro choices default st0 ops h0
    rw [RadioForm.init_eq] at h0
    have hinv : choiceInv st0 := Or.inl (((ChoiceForm.init_ok _ _ _ h0).1) ▸
      (ChoiceForm.init_ok _ _ _ h0).2)
    rw [RadioForm.applyOp_eq]
    exact ChoiceForm.foldl_inv ops st0 hinv

/-- Witness for C4 (amended) at concrete inputs. -/
theorem choice_remove_selected_and_invariant_witness :
    ChoiceForm.remove_choice ⟨["a", "b"], "a"⟩ "a" = .ok ⟨["b"], "b"⟩ ∧
    choiceInv ([ChoiceOp.clearChoices].foldl ChoiceForm.applyOp ⟨["a"], "a"⟩) :=
  ⟨(choice_remove_selected_and_invariant.1 ⟨["a", "b"], "a"⟩ "a" (by decide) rfl).1,
   choice_remove_selected_and_invariant.2.1 ["a"] none ⟨["a"], "a"⟩
     [ChoiceOp.clearChoices] rfl⟩

/-- Claim C6 (counterexample): the claim says every stored text that is
not a valid textual form of a mapping reads back as the empty mapping, but
the stored text `5` parses as the integer literal `5` (not a mapping) and
the getter returns that integer, not the empty mapping. -/
theorem dictform_nonmapping_text_counterexample :
    literalEval ['5'] = some (.vInt 5) ∧
    DictForm.value_get ⟨some ['5']⟩ = .ok (.vInt 5) ∧
    DictForm.value_get ⟨some ['5']⟩ ≠ .ok (.vDict []) := by
  refine ⟨rfl, rfl, fun h => ?_⟩
  rw [show DictForm.value_get ⟨some ['5']⟩ = .ok (.vInt 5) from rfl] at h
  injection h with h
  exact PyVal.noConfusion h

/-- Claim C6 (amended): a stored text on which the literal parser raises
reads back as the empty mapping with no failure surfaced; a stored text
that parses as a literal of any type (mapping or not) is returned as that
parsed value. -/
theorem dictform_invalid_text_behavior :
    (∀ s : PyStr, literalEval s = none →
        DictForm.value_get ⟨some s⟩ = .ok (.vDict [])) ∧
    (∀ (s : PyStr) (v : PyVal), literalEval s = some v →
        DictForm.value_get ⟨some s⟩ = .ok v) := by
  constructor
  · intro s h
    simp [DictForm.value_get, h]
  · intro s v h
    simp [DictForm.value_get, h]

/-- Witness for C6 (amended) at concrete inputs. -/
theorem dictform_invalid_text_behavior_witness :
    DictForm.value_get ⟨some "not a dict".data⟩ = .ok (.vDict []) ∧
    DictForm.value_get ⟨some "[1]".data⟩ = .ok (.vList [.vInt 1]) :=
  ⟨dictform_invalid_text_behavior.1 "not a dict".data rfl,
   dictform_invalid_text_behavior.2 "[1]".data (.vList [.vInt 1]) rfl⟩

/-- Claim C5: for every dictionary in the supported literal fragment,
setting a `DictForm` to it and reading back returns the same dictionary;
reading a `DictForm` constructed without a default, or after setting the
value to `None`, returns the empty mapping. -/
theorem dictform_roundtrip :
    (∀ (st : DictFormState) (var0 : PyStr) (d : List (PyVal × PyVal)),
        st.var = some var0 → goodValEntries d = true →
        DictForm.setThenGet st d = .ok (.vDict d)) ∧
    DictForm.value_get (DictForm.init none) = .ok (.vDict []) ∧
    (∀ (st : DictFormState) (var0 : PyStr), st.var = some var0 →
        DictForm.value_set st none = .ok ⟨some ['{', '}']⟩) ∧
    DictForm.value_get ⟨some ['{', '}']⟩ = .ok (.vDict []) := by
  refine ⟨?_, rfl, ?_, rfl⟩
  · intro st var0 d hvar hg
    unfold DictForm.setThenGet DictForm.value_set
    rw [hvar]
    simp [DictForm.value_get, literalEval_reprDict d hg]
  · intro st var0 hvar
    unfold DictForm.value_set
    rw [hvar]

/-- Witness for C5 at a concrete input. -/
theorem dictform_roundtrip_witness :
    DictForm.setThenGet (DictForm.init none) [(.vStr ['a'], .vInt 1)]
      = .ok (.vDict [(.vStr ['a'], .vInt 1)]) ∧
    DictForm.value_set (DictForm.init none) none = .ok ⟨some ['{', '}']⟩ :=
  ⟨dictform_roundtrip.1 (DictForm.init none) ['{', '}'] [(.vStr ['a'], .vInt 1)]
      rfl (by decide),
   dictform_roundtrip.2.2.1 (DictForm.init none) ['{', '}'] rfl⟩

/-- Claim C1 (counterexample): the claim allows losses only for lists with
elements containing the separator, but the singleton list holding the
empty string contains no comma and still fails to round-trip: its
comma-join is the empty string, which reads back as the empty list. -/
theorem listform_singleton_empty_counterexample :
    (',' ∉ ([] : PyStr)) ∧
    ListForm.setThenGet ['x'] [[]] = .ok [] ∧
    (.ok ([] : List PyStr) : Except String (List PyStr)) ≠ .ok [[]] := by
  refine ⟨by decide, rfl, fun h => ?_⟩
  injection h with h
  exact List.noConfusion h

/-- Claim C1 (amended): `set(v); get()` returns a value equal to `v` on
each variant's domain: the base accessors (`StringForm`, `IntForm`,
`FloatForm`, `BoolForm`) pass any value through; `ListForm` round-trips
every list of comma-free strings *except* the singleton list holding the
empty string (whose comma-join is empty and reads back as `[]`);
`ChoiceForm`/`RadioForm` round-trip every value inside `choices`;
`DictForm` round-trips every mapping in the supported literal fragment;
`ColorForm`, `FileForm` and `PathForm` round-trip every string; and
`MultiChoiceForm`, whose declared domain is a *set* of selected strings
from `choices`, round-trips every selection drawn from `choices` as a
set: after `set(vs)`, `get()` reads the selection back in listbox order,
containing exactly the members of `vs`. -/
theorem setget_roundtrip :
    (∀ (α : Type) (cur x : α), FormElement.setThenGet cur x = .ok x) ∧
    (∀ (var0 : PyStr) (l : List PyStr),
        (∀ s ∈ l, ',' ∉ s) → l ≠ [[]] → ListForm.setThenGet var0 l = .ok l) ∧
    (∀ (st : ChoiceFormState) (v : String), v ∈ st.choices →
        ChoiceForm.value_set st (some v) = .ok { st with var := v } ∧
        ChoiceForm.value_get { st with var := v } = v ∧
        RadioForm.value_set st (some v) = .ok { st with var := v } ∧
        RadioForm.value_get { st with var := v } = v) ∧
    (∀ (st : DictFormState) (var0 : PyStr) (d : List (PyVal × PyVal)),
        st.var = some var0 → goodValEntries d = true →
        DictForm.setThenGet st d = .ok (.vDict d)) ∧
    (∀ cur s : String, ColorForm.setThenGet cur s = .ok s) ∧
    (∀ cur s : String, FileForm.setThenGet cur s = .ok s) ∧
    (∀ cur s : String, PathForm.setThenGet cur s = .ok s) ∧
    (∀ (st : MultiChoiceFormState) (vs : List String),
        (∀ v ∈ vs, v ∈ st.choices) →
        ∀ x, (x ∈ MultiChoiceForm.value_get (MultiChoiceForm.value_set st (some vs))
          ↔ x ∈ vs)) := by
  refine ⟨fun α cur x => rfl, ?_, ?_, ?_, fun cur s => rfl, fun cur s => rfl,
    fun cur s => rfl, fun st vs hvs x => multichoice_set_get_mem st vs hvs x⟩
  · intro var0 l hc hne
    have h := listform_roundtrip l hc hne
    simp only [List.isEmpty_iff] at h
    simp [ListForm.setThenGet, ListForm.value_set, ListForm.value_get, h]
  · intro st v hv
    have h1 : ChoiceForm.value_set st (some v) = .ok { st with var := v } := by
      simp [ChoiceForm.value_set, hv]
    exact ⟨h1, rfl, by rw [RadioForm.value_set_eq]; exact h1, rfl⟩
  · intro st var0 d hvar hg
    unfold DictForm.setThenGet DictForm.value_set
    rw [hvar]
    simp [DictForm.value_get, literalEval_reprDict d hg]

/-- Witness for C1 (amended) at concrete inputs. -/
theorem setget_roundtrip_witness :
    FormElement.setThenGet (0 : Int) 5 = .ok 5 ∧
    ListForm.setThenGet [] [['a'], ['b']] = .ok [['a'], ['b']] ∧
    ChoiceForm.value_set ⟨["a", "b"], "a"⟩ (some "b") = .ok ⟨["a", "b"], "b"⟩ ∧
    DictForm.setThenGet (DictForm.init none) [(.vStr ['k'], .vBool true)]
      = .ok (.vDict [(.vStr ['k'], .vBool true)]) ∧
    ColorForm.setThenGet "#000000" "x" = .ok "x" ∧
    (("a" ∈ MultiChoiceForm.value_get
        (MultiChoiceForm.value_set ⟨["a", "b", "c"], []⟩ (some ["c", "a"])))
      ↔ "a" ∈ (["c", "a"] : List String)) :=
  ⟨setget_roundtrip.1 Int 0 5,
   setget_roundtrip.2.1 [] [['a'], ['b']] (by decide) (by decide),
   (setget_roundtrip.2.2.1 ⟨["a", "b"], "a"⟩ "b" (by decide)).1,
   setget_roundtrip.2.2.2.1 (DictForm.init none) ['{', '}']
     [(.vStr ['k'], .vBool true)] rfl (by decide),
   setget_roundtrip.2.2.2.2.1 "#000000" "x",
   setget_roundtrip.2.2.2.2.2.2.2 ⟨["a", "b", "c"], []⟩ ["c", "a"] (by decide) "a"⟩

/-- Claim C10: in `RUN_CODE` mode, when the aggregated mapping has an
entry named `result` with value `v`, that value is injected into the
execution context, so if the executed code terminates without changing the
`result` binding, `submit` returns `v` rather than an absent value. -/
theorem submit_run_code_result_injection :
    ∀ (transport : String → String → List (String × PyVal) → Except String PyStr)
      (runner : String → List (String × PyVal) → Except String (List (String × PyVal)))
      (elems : List FormElem) (code : String) (v : PyVal)
      (g2 : List (String × PyVal)),
      code ≠ "" →
      dictGet (Form.process_form elems) "result" = some v →
      runner code (buildGlobals (Form.process_form elems)) = .ok g2 →
      dictGet g2 "result" = dictGet (buildGlobals (Form.process_form elems)) "result" →
      Form.submit transport runner elems .run_code (some code) =
        { result := .ok v, elements := elems, effects := [] } := by
  intro transport runner elems code v g2 hcode hres hrun hpres
  have htr : truthy (some code) = true := by
    simp [truthy, hcode]
  have hglobals : dictGet (buildGlobals (Form.process_form elems)) "result" = some v := by
    unfold buildGlobals
    exact dictGet_foldl_insert_of_get _ _ _ _ (process_form_keys_nodup elems) hres
  rw [hglobals] at hpres
  simp [Form.submit, htr, hrun, hpres]

/-- Witness for C10 at a concrete input: one element named `result`
holding `7`, executed code modelled as a run that leaves the context
unchanged. -/
theorem submit_run_code_result_injection_witness :
    Form.submit (fun _ _ _ => .ok []) (fun _ g => .ok g)
        [⟨"result", some (PyVal.vInt 7)⟩] .run_code (some "pass") =
      { result := .ok (PyVal.vInt 7),
        elements := [⟨"result", some (PyVal.vInt 7)⟩], effects := [] } :=
  submit_run_code_result_injection (fun _ _ _ => .ok []) (fun _ g => .ok g)
    [⟨"result", some (PyVal.vInt 7)⟩] "pass" (PyVal.vInt 7) _
    (by decide) rfl rfl rfl
